import Mathlib

/-!
Verification development for the DiscordPermissionBot reconciliation engine
(src/services/sync.py and src/services/airtable_client.py).

The Python source is shallowly embedded: Python dicts become association
lists with last-binding-wins lookup, mutation becomes explicit state
passing, Discord API writes become a state transformer driven by an
outcome oracle, and print-based warnings become a log of structured events.
-/

namespace PermBot

/-- Python dict lookup over an association list built from a sequence of
bindings: the last binding for a key wins (matching dict-comprehension
semantics where later duplicate keys overwrite earlier ones). -/
def dictGet [BEq α] (l : List (α × β)) (k : α) : Option β :=
  (l.reverse.find? (fun p => p.1 == k)).map (·.2)

/-- A live Discord object (role, category or channel) as seen by the
resolver: a stable numeric id and a mutable display name.  Equality of
Discord objects in the source (Role.__eq__ etc.) compares ids; the
id-based comparisons below make that explicit. -/
structure DObj where
  id : Int
  name : String
  deriving Repr, DecidableEq

/-- A tri-state permission overwrite: explicit flags only, as the keyword
dict passed to discord.PermissionOverwrite.  A flag that is absent is
inherited (neutral); present true is allow, present false is deny. -/
abbrev Overwrite := List (String × Bool)

/-- Attribute read on an overwrite: the tri-state value of one flag. -/
def owGet (ow : Overwrite) (flag : String) : Option Bool :=
  dictGet ow flag

/-- One Airtable record as consumed by _resolve: the Airtable record id
plus its string-valued fields.  A missing field reads as the empty string,
mirroring record["fields"].get(field, "") or "". -/
structure ATRecord where
  rid : String
  fields : List (String × String)
  deriving Repr, DecidableEq

/-- Field access with the empty-string default used throughout sync.py. -/
def getField (r : ATRecord) (k : String) : String :=
  (dictGet r.fields k).getD ""

/-- A queued Airtable write: (table key, record id, field updates).
Mirrors the tuples appended to plan.airtable_updates. -/
abbrev Update := String × String × List (String × String)

/-- The print-based diagnostics of sync.py as structured events. -/
inductive LogEvent where
  /-- WARNING: invalid Discord ID, falling back to name (sync.py:115). -/
  | invalidId (kind name idStr : String)
  /-- WARNING: object no longer exists in Discord, skipping (sync.py:126). -/
  | deleted (kind name : String) (id : Int)
  /-- Name drift detected and queued (sync.py:123). -/
  | nameDrift (kind oldName newName : String)
  /-- WARNING: object not found in Discord, skipping (sync.py:138). -/
  | notFound (kind name : String)
  /-- WARNING: duplicate Discord names, last match wins (sync.py:168/173/178). -/
  | dupNames (kind : String) (names : List String)
  deriving Repr, DecidableEq

def LogEvent.isInvalidId : LogEvent → Bool
  | .invalidId _ _ _ => true
  | _ => false

def LogEvent.isDeleted : LogEvent → Bool
  | .deleted _ _ _ => true
  | _ => false

/-- Digits of a numeral to a natural number. -/
def digitsToNat (cs : List Char) : Nat :=
  cs.foldl (fun acc c => acc * 10 + (c.toNat - 48)) 0

/-- Python int(str) on the strings that occur in Discord-ID fields:
optional surrounding whitespace, an optional sign, then decimal digits;
anything else raises ValueError (modelled as none).  (Python's underscore
digit grouping and non-ASCII digits are not modelled.) -/
def parseInt? (s : String) : Option Int :=
  let cs := ((s.data.dropWhile (·.isWhitespace)).reverse.dropWhile (·.isWhitespace)).reverse
  match cs with
  | [] => none
  | '-' :: rest =>
      if rest ≠ [] ∧ rest.all (·.isDigit) then some (-(digitsToNat rest : Int)) else none
  | '+' :: rest =>
      if rest ≠ [] ∧ rest.all (·.isDigit) then some ((digitsToNat rest : Int)) else none
  | _ =>
      if cs.all (·.isDigit) then some ((digitsToNat cs : Int)) else none

/-- Result of one _resolve call: the resolved object (none = unresolved),
the Airtable updates it queued, and the warnings it printed. -/
structure ResolveOut where
  obj : Option DObj
  updates : List Update
  log : List LogEvent
  deriving Repr, DecidableEq

/-- The shared tail of _resolve (sync.py:129-139): name-match fallback.
Reached when the record has no Discord ID, an unparsable one, or one that
parses to zero.  On a name match the Discord id is backfilled. -/
def nameFallback (rec : ATRecord) (idField nameField : String)
    (byName : List (String × DObj)) (tableKey : String) (kind : String) :
    ResolveOut :=
  let atName := getField rec nameField
  if atName = "" then ⟨none, [], []⟩
  else
    match dictGet byName atName with
    | some obj => ⟨some obj, [(tableKey, rec.rid, [(idField, toString obj.id)])], []⟩
    | none => ⟨none, [], [.notFound kind atName]⟩

/-- Embedding of _resolve (sync.py:87-139).  ID-first resolution: a record
with a parsable, non-zero Discord ID is looked up by id — found means
return (queueing a name-drift correction if the stored name differs),
not found means warn and return unresolved with no name fallback.  Only
an absent, unparsable, or zero id reaches the name-match fallback. -/
def resolveRec (rec : ATRecord) (idField nameField : String)
    (byId : List (Int × DObj)) (byName : List (String × DObj))
    (tableKey : String) (kind : String) : ResolveOut :=
  let discordIdStr := getField rec idField
  let atName := getField rec nameField
  if discordIdStr ≠ "" then
    match parseInt? discordIdStr with
    | none =>
        let rest := nameFallback rec idField nameField byName tableKey kind
        ⟨rest.obj, rest.updates, .invalidId kind atName discordIdStr :: rest.log⟩
    | some n =>
        if n ≠ 0 then
          match dictGet byId n with
          | some obj =>
              if obj.name ≠ atName then
                ⟨some obj, [(tableKey, rec.rid, [(nameField, obj.name)])],
                 [.nameDrift kind atName obj.name]⟩
              else ⟨some obj, [], []⟩
          | none => ⟨none, [], [.deleted kind atName n]⟩
        else nameFallback rec idField nameField byName tableKey kind
  else nameFallback rec idField nameField byName tableKey kind

-- ---------------------------------------------------------------------------
-- Plan data model (sync.py:42-64)
-- ---------------------------------------------------------------------------

/-- One planned overwrite (sync.py:42-46): target (a role, or the implicit
everyone role), the tri-state permission set, and a provenance label. -/
structure OverwriteEntry where
  target : DObj
  overwrite : Overwrite
  source : String
  deriving Repr, DecidableEq

/-- The entries dict of a PermissionPlan, in insertion order. -/
abbrev Entries := List (Int × List OverwriteEntry)

/-- Embedding of entries.setdefault(target_id, []).append(entry)
(sync.py:63): append to the existing key if present, else insert the key
at the end with a singleton list. -/
def addEntry : Entries → Int → OverwriteEntry → Entries
  | [], tid, e => [(tid, [e])]
  | (k, l) :: rest, tid, e =>
      if k = tid then (k, l ++ [e]) :: rest
      else (k, l) :: addEntry rest tid e

/-- Embedding of PermissionPlan (sync.py:49-63). -/
structure PermissionPlan where
  entries : Entries := []
  airtableUpdates : List Update := []
  deriving Repr, DecidableEq

/-- PermissionPlan.add (sync.py:62-63). -/
def PermissionPlan.add (p : PermissionPlan) (tid : Int) (e : OverwriteEntry) :
    PermissionPlan :=
  { p with entries := addEntry p.entries tid e }

-- ---------------------------------------------------------------------------
-- Permission level lookup and Deny inversion (sync.py:70-80, 236-246)
-- ---------------------------------------------------------------------------

/-- Embedding of level_to_overwrite (sync.py:70-80): look up a named level
in the store; an undefined level yields the empty (all-inherit) set. -/
def levelToOverwrite (levels : List (String × Overwrite)) (levelName : String) :
    Overwrite :=
  (dictGet levels levelName).getD []

/-- The Deny flip of sync.py:238-243: every explicit True becomes False and
every explicit False becomes True; flags not present (inherited) are not
iterated into the flipped dict and stay absent. -/
def invertOverwrite (ow : Overwrite) : Overwrite :=
  ow.map (fun p => (p.1, !p.2))

/-- The overwrite an access rule finally uses (sync.py:236-246): the Deny
direction inverts the level, anything else keeps it. -/
def finalOverwrite (base : Overwrite) (dir : String) : Overwrite :=
  if dir = "Deny" then invertOverwrite base else base

-- ---------------------------------------------------------------------------
-- Record-store field names.  Modelled from the spec: config.py (the
-- RoleFields/CategoryFields/ChannelFields constant classes it defines) is
-- not under src/; the constants are opaque record-field keys whose exact
-- string values never influence control flow, so representative values
-- are used.
-- ---------------------------------------------------------------------------

def RoleFields.DISCORD_ID : String := "Role Discord ID"
def RoleFields.NAME : String := "Role Name"
def CategoryFields.DISCORD_ID : String := "Category Discord ID"
def CategoryFields.NAME : String := "Category Name"
def CategoryFields.BASELINE : String := "Baseline"
def ChannelFields.DISCORD_ID : String := "Channel Discord ID"
def ChannelFields.NAME : String := "Channel Name"

-- ---------------------------------------------------------------------------
-- Live guild model
-- ---------------------------------------------------------------------------

/-- A live channel or category: id, name, and its current permission
overwrites (channel.overwrites), a dict keyed by target object in
insertion order. -/
structure LChannel where
  id : Int
  name : String
  overwrites : List (DObj × Overwrite)
  deriving Repr, DecidableEq

def LChannel.toObj (c : LChannel) : DObj := ⟨c.id, c.name⟩

/-- The parts of discord.Guild that build_permission_plan reads.
textChannels models the non-category members of guild.channels (the
isinstance(CategoryChannel) filter of sync.py:175/186-191). -/
structure Guild where
  roles : List DObj
  categories : List LChannel
  textChannels : List LChannel
  defaultRole : DObj
  deriving Repr

/-- The guild.channels roster (categories and non-category channels) that
apply_permission_plan and diff_permission_plan index by id. -/
def Guild.allChannels (g : Guild) : List LChannel :=
  g.categories ++ g.textChannels

-- ---------------------------------------------------------------------------
-- Airtable client with disk-cache fallback (airtable_client.py)
-- ---------------------------------------------------------------------------

/-- An access-rule record with the field reads of sync.py:224-229 already
applied (each .get default is baked in: absent list fields read as [],
absent strings as "", absent overwrite direction as "Allow"). -/
structure ARRecord where
  rid : String
  roleRefs : List String := []
  scope : String := ""
  catRefs : List String := []
  chRefs : List String := []
  levelName : String := ""
  overwriteDir : String := "Allow"
  deriving Repr, DecidableEq

/-- The record store as the Plan Builder sees it: whether /setup airtable
has configured the guild (guild_config.get, airtable_client.py:169), and
per table the remote fetch result (none = the fetch raised) and the disk
cache content (none = key absent from the cache file). -/
structure StoreEnv where
  configured : Bool
  remoteRoles : Option (List ATRecord) := none
  diskRoles : Option (List ATRecord) := none
  remoteCats : Option (List ATRecord) := none
  diskCats : Option (List ATRecord) := none
  remoteChans : Option (List ATRecord) := none
  diskChans : Option (List ATRecord) := none
  remoteRules : Option (List ARRecord) := none
  diskRules : Option (List ARRecord) := none

/-- AirtableClient._fetch (airtable_client.py:79-96): use the remote fetch
when it succeeds; on failure fall back to the disk cache; raise
RuntimeError when neither is available. -/
def fetchTable (remote disk : Option α) (key : String) : Except String α :=
  match remote with
  | some d => .ok d
  | none =>
      match disk with
      | some d => .ok d
      | none =>
          .error ("Airtable unavailable and no disk cache for " ++ key ++
                  ". Try again once Airtable is reachable.")

/-- Discriminator: did an Except computation succeed? -/
def exceptOk : Except ε α → Bool
  | .ok _ => true
  | .error _ => false

-- ---------------------------------------------------------------------------
-- Plan builder (sync.py:146-298)
-- ---------------------------------------------------------------------------

/-- Duplicate-name warning of sync.py:164-178: names occurring more than
once are reported once per kind. -/
def dupWarn (kind : String) (names : List String) : List LogEvent :=
  let dups := (names.filter (fun n => 1 < names.count n)).eraseDups
  if dups = [] then [] else [.dupNames kind dups]

/-- Step 1 body (sync.py:198-216): one category record with a non-empty
baseline level resolves the category and adds the everyone-baseline entry. -/
def catStep (levels : List (String × Overwrite)) (everyone : DObj)
    (catsById : List (Int × DObj)) (catsByName : List (String × DObj))
    (acc : PermissionPlan × List LogEvent) (catRec : ATRecord) :
    PermissionPlan × List LogEvent :=
  let (plan, log) := acc
  let levelName := getField catRec CategoryFields.BASELINE
  if levelName = "" then (plan, log)
  else
    let r := resolveRec catRec CategoryFields.DISCORD_ID CategoryFields.NAME
      catsById catsByName "categories" "category"
    let plan := { plan with airtableUpdates := plan.airtableUpdates ++ r.updates }
    let log := log ++ r.log
    match r.obj with
    | none => (plan, log)
    | some dcat =>
        (plan.add dcat.id
          ⟨everyone, levelToOverwrite levels levelName,
           "@everyone baseline → " ++ levelName⟩, log)

/-- Scope resolution of one access rule (sync.py:248-275): the referenced
categories or channels are looked up in the Airtable by-record-id index
and resolved to live objects; misses are skipped. -/
def resolveScope (rule : ARRecord)
    (catById : List (String × ATRecord)) (chById : List (String × ATRecord))
    (catsById : List (Int × DObj)) (catsByName : List (String × DObj))
    (chansById : List (Int × DObj)) (chansByName : List (String × DObj)) :
    List DObj × List Update × List LogEvent :=
  if rule.scope = "Category" then
    rule.catRefs.foldl
      (fun (acc : List DObj × List Update × List LogEvent) ref =>
        match dictGet catById ref with
        | none => acc
        | some atCat =>
            let r := resolveRec atCat CategoryFields.DISCORD_ID CategoryFields.NAME
              catsById catsByName "categories" "category"
            ⟨acc.1 ++ r.obj.toList, acc.2.1 ++ r.updates, acc.2.2 ++ r.log⟩)
      ⟨[], [], []⟩
  else if rule.scope = "Channel" then
    rule.chRefs.foldl
      (fun (acc : List DObj × List Update × List LogEvent) ref =>
        match dictGet chById ref with
        | none => acc
        | some atCh =>
            let r := resolveRec atCh ChannelFields.DISCORD_ID ChannelFields.NAME
              chansById chansByName "channels" "channel"
            ⟨acc.1 ++ r.obj.toList, acc.2.1 ++ r.updates, acc.2.2 ++ r.log⟩)
      ⟨[], [], []⟩
  else ⟨[], [], []⟩

/-- Step 2 body (sync.py:221-296): one access rule with role references
and a level contributes (resolved role × resolved target) entries carrying
the level, inverted when the rule direction is Deny. -/
def ruleStep (levels : List (String × Overwrite))
    (roleById : List (String × ATRecord))
    (catById : List (String × ATRecord)) (chById : List (String × ATRecord))
    (rolesById : List (Int × DObj)) (rolesByName : List (String × DObj))
    (catsById : List (Int × DObj)) (catsByName : List (String × DObj))
    (chansById : List (Int × DObj)) (chansByName : List (String × DObj))
    (acc : PermissionPlan × List LogEvent) (rule : ARRecord) :
    PermissionPlan × List LogEvent :=
  let (plan, log) := acc
  if rule.roleRefs = [] ∨ rule.levelName = "" then (plan, log)
  else
    let finalOw := finalOverwrite (levelToOverwrite levels rule.levelName) rule.overwriteDir
    let sc := resolveScope rule catById chById catsById catsByName chansById chansByName
    let targets := sc.1
    let plan := { plan with airtableUpdates := plan.airtableUpdates ++ sc.2.1 }
    let log := log ++ sc.2.2
    rule.roleRefs.foldl
      (fun (acc2 : PermissionPlan × List LogEvent) roleRef =>
        let (plan, log) := acc2
        match dictGet roleById roleRef with
        | none => (plan, log)
        | some atRole =>
            let r := resolveRec atRole RoleFields.DISCORD_ID RoleFields.NAME
              rolesById rolesByName "roles" "role"
            let plan := { plan with airtableUpdates := plan.airtableUpdates ++ r.updates }
            let log := log ++ r.log
            match r.obj with
            | none => (plan, log)
            | some drole =>
                (targets.foldl
                  (fun p t =>
                    p.add t.id
                      ⟨drole, finalOw,
                       drole.name ++ " → " ++ rule.levelName ++
                       " (" ++ rule.overwriteDir ++ ")"⟩)
                  plan, log))
      (plan, log)

/-- Embedding of build_permission_plan (sync.py:146-298) together with the
record-store access it performs (get_airtable raising RuntimeError when
the guild is unconfigured, airtable_client.py:163-180, and _fetch raising
when a table is neither fetchable nor disk-cached).  Errors carry the
RuntimeError message; a successful pass returns the plan and the log. -/
def buildPermissionPlan (env : StoreEnv) (levels : List (String × Overwrite))
    (g : Guild) : Except String (PermissionPlan × List LogEvent) :=
  if !env.configured then
    .error ("Airtable is not configured for this server. " ++
            "An admin can run /setup airtable to connect an Airtable base.")
  else
    match fetchTable env.remoteRoles env.diskRoles "roles" with
    | .error e => .error e
    | .ok atRoles =>
    match fetchTable env.remoteCats env.diskCats "categories" with
    | .error e => .error e
    | .ok atCats =>
    match fetchTable env.remoteChans env.diskChans "channels" with
    | .error e => .error e
    | .ok atChans =>
      let roleById := atRoles.map (fun r => (r.rid, r))
      let catById := atCats.map (fun r => (r.rid, r))
      let chById := atChans.map (fun r => (r.rid, r))
      let log0 :=
        dupWarn "role" (g.roles.map (·.name)) ++
        dupWarn "category" (g.categories.map (·.name)) ++
        dupWarn "channel" (g.textChannels.map (·.name))
      let rolesById := g.roles.map (fun r => (r.id, r))
      let rolesByName := g.roles.map (fun r => (r.name, r))
      let catsById := g.categories.map (fun c => (c.id, c.toObj))
      let catsByName := g.categories.map (fun c => (c.name, c.toObj))
      let chansById := g.textChannels.map (fun c => (c.id, c.toObj))
      let chansByName := g.textChannels.map (fun c => (c.name, c.toObj))
      let acc1 := atCats.foldl (catStep levels g.defaultRole catsById catsByName)
        (⟨[], []⟩, log0)
      match fetchTable env.remoteRules env.diskRules "access_rules" with
      | .error e => .error e
      | .ok atRules =>
          .ok (atRules.foldl
            (ruleStep levels roleById catById chById rolesById rolesByName
              catsById catsByName chansById chansByName) acc1)

-- ---------------------------------------------------------------------------
-- Applier (sync.py:311-391)
-- ---------------------------------------------------------------------------

/-- Outcome of one channel.set_permissions attempt: success, or an
HTTPException with its status code and its optional retry_after (a 429
with no platform interval falls back to the doubling local delay). -/
inductive WriteOutcome where
  | ok
  | exn (status : Nat) (retryAfter : Option ℚ)
  deriving Repr, DecidableEq

/-- The retry loop of _set_with_backoff (sync.py:322-341): up to
maxRetries attempts; a 429 sleeps once (counted) and retries with the
fallback delay doubled; any other HTTPException or loop exhaustion gives
up.  Returns (success, number of backoff sleeps).  The fixed pacing sleep
after a success (sync.py:326) is not a backoff sleep and is not counted
here. -/
def setWithBackoffGo (outcome : Nat → WriteOutcome) :
    Nat → Nat → ℚ → Nat → Bool × Nat
  | _, 0, _, sleeps => (false, sleeps)
  | attempt, remaining + 1, delay, sleeps =>
      match outcome attempt with
      | .ok => (true, sleeps)
      | .exn status _ =>
          if status = 429 then
            setWithBackoffGo outcome (attempt + 1) remaining (delay * 2) (sleeps + 1)
          else (false, sleeps)

/-- Embedding of _set_with_backoff (sync.py:311-341). -/
def setWithBackoff (outcome : Nat → WriteOutcome) (maxRetries : Nat := 3) :
    Bool × Nat :=
  setWithBackoffGo outcome 0 maxRetries 1 0

/-- The write issued for one overwrite slot: removal (overwrite=None) or
setting an overwrite. -/
inductive WriteOp where
  | remove
  | set (ow : Overwrite)
  deriving Repr, DecidableEq

/-- One logged platform write: where it went, what it was, whether the
retry wrapper ultimately succeeded, and how many backoff sleeps it cost. -/
structure WriteRec where
  channelId : Int
  targetId : Int
  op : WriteOp
  ok : Bool
  sleeps : Nat
  deriving Repr, DecidableEq

/-- State threaded through apply_permission_plan: the live channels, the
three counters of sync.py:362-364, and the write log. -/
structure ApplyState where
  chans : List LChannel
  applied : Nat
  removed : Nat
  errors : Nat
  writes : List WriteRec
  deriving Repr, DecidableEq

/-- Membership of a target in a set of Role/Member objects: Discord object
equality compares ids. -/
def memTargets (t : DObj) (ts : List DObj) : Bool :=
  ts.any (fun x => x.id == t.id)

/-- channel.overwrites after set_permissions(target, overwrite=ow): the
slot for that target id is replaced in place if present, appended
otherwise (dict-update semantics, original key object retained). -/
def owsSet (ows : List (DObj × Overwrite)) (t : DObj) (ow : Overwrite) :
    List (DObj × Overwrite) :=
  if ows.any (fun p => p.1.id == t.id) then
    ows.map (fun p => if p.1.id == t.id then (p.1, ow) else p)
  else ows ++ [(t, ow)]

/-- channel.overwrites after set_permissions(target, overwrite=None): the
slot for that target id is removed. -/
def owsRemove (ows : List (DObj × Overwrite)) (t : DObj) :
    List (DObj × Overwrite) :=
  ows.filter (fun p => !(p.1.id == t.id))

/-- Apply a function to the channel(s) with the given id. -/
def updateChan (chans : List LChannel) (cid : Int) (f : LChannel → LChannel) :
    List LChannel :=
  chans.map (fun c => if c.id == cid then f c else c)

/-- One write of the apply loop: run the retry wrapper (the oracle is
indexed by the global write number, then the attempt number), log the
write, on success mutate the channel's overwrites and bump the applied or
removed counter, on failure bump the error counter (sync.py:376-389). -/
def applyWrite (oracle : Nat → Nat → WriteOutcome) (st : ApplyState)
    (cid : Int) (t : DObj) (op : WriteOp) : ApplyState :=
  let res := setWithBackoff (oracle st.writes.length) 3
  let st := { st with writes := st.writes ++ [(⟨cid, t.id, op, res.1, res.2⟩ : WriteRec)] }
  if res.1 then
    let st := { st with
      chans := updateChan st.chans cid (fun c =>
        { c with overwrites :=
            match op with
            | .remove => owsRemove c.overwrites t
            | .set ow => owsSet c.overwrites t ow }) }
    match op with
    | .remove => { st with removed := st.removed + 1 }
    | .set _ => { st with applied := st.applied + 1 }
  else { st with errors := st.errors + 1 }

/-- The channels_by_id lookup (sync.py:359-361, 367): the live channel
with the given id, if any. -/
def chanGet (chans : List LChannel) (tid : Int) : Option LChannel :=
  dictGet (chans.map (fun c => (c.id, c))) tid

/-- The per-channel body of apply_permission_plan (sync.py:366-389): skip
plan channels missing from the live roster; otherwise first remove every
existing overwrite whose target is not planned, then set every planned
entry. -/
def applyChannel (oracle : Nat → Nat → WriteOutcome) (st : ApplyState)
    (tid : Int) (entries : List OverwriteEntry) : ApplyState :=
  match chanGet st.chans tid with
  | none => st
  | some ch =>
      let plannedTargets := entries.map (·.target)
      let st := ch.overwrites.foldl
        (fun st p =>
          if memTargets p.1 plannedTargets then st
          else applyWrite oracle st ch.id p.1 .remove) st
      entries.foldl (fun st e => applyWrite oracle st ch.id e.target (.set e.overwrite)) st

/-- The apply loop over plan entries in insertion order (sync.py:366). -/
def applyFold (oracle : Nat → Nat → WriteOutcome) (l : Entries)
    (st : ApplyState) : ApplyState :=
  l.foldl (fun st pe => applyChannel oracle st pe.1 pe.2) st

/-- Embedding of apply_permission_plan (sync.py:348-391), the platform
responses supplied by the outcome oracle. -/
def applyPermissionPlan (oracle : Nat → Nat → WriteOutcome)
    (plan : PermissionPlan) (chans : List LChannel) : ApplyState :=
  applyFold oracle plan.entries ⟨chans, 0, 0, 0, []⟩

/-- The all-success oracle: every write attempt succeeds immediately.
Models an apply pass in which the platform accepts every call. -/
def okOracle : Nat → Nat → WriteOutcome := fun _ _ => .ok

def WriteOp.isSet : WriteOp → Bool
  | .set _ => true
  | .remove => false

/-- The oracle-independent content of a logged write: where it went and
what it was. -/
def writeShape (w : WriteRec) : Int × Int × WriteOp :=
  (w.channelId, w.targetId, w.op)

/-- Successful set-overwrite writes in a log. -/
def countApplied (ws : List WriteRec) : Nat :=
  (ws.filter (fun w => w.ok && w.op.isSet)).length

/-- Successful remove-overwrite writes in a log. -/
def countRemoved (ws : List WriteRec) : Nat :=
  (ws.filter (fun w => w.ok && !w.op.isSet)).length

/-- Failed writes in a log. -/
def countErrors (ws : List WriteRec) : Nat :=
  (ws.filter (fun w => !w.ok)).length

/-- The stale slots of a live channel relative to a plan entry list: the
existing overwrites whose target is not planned (sync.py:374-375). -/
def staleOf (ch : LChannel) (es : List OverwriteEntry) : List (DObj × Overwrite) :=
  ch.overwrites.filter (fun p => !(memTargets p.1 (es.map (·.target))))

/-- The intended effect of one fully-successful apply pass on one live
channel: stale slots dropped, then every planned entry set in order. -/
def applyChanOk (ch : LChannel) (es : List OverwriteEntry) : LChannel :=
  { ch with overwrites :=
      (es.foldl (fun ows e => owsSet ows e.target e.overwrite)
        (ch.overwrites.filter (fun p => memTargets p.1 (es.map (·.target))))) }

/-- The overwrite of the last entry in a list targeting a given object id
(the authoritative one once the entries are applied in order). -/
def lastOw (es : List OverwriteEntry) (i : Int) : Option Overwrite :=
  (es.reverse.find? (fun e => e.target.id == i)).map (·.overwrite)

/-- The shapes of the writes one plan entry issues against a given live
roster: removals for the stale slots, then sets for the planned entries;
nothing for a channel missing from the roster. -/
def chanWrites (chans : List LChannel) (tid : Int) (es : List OverwriteEntry) :
    List (Int × Int × WriteOp) :=
  match chanGet chans tid with
  | none => []
  | some ch =>
      (staleOf ch es).map (fun p => (ch.id, p.1.id, WriteOp.remove)) ++
      es.map (fun e => (ch.id, e.target.id, WriteOp.set e.overwrite))

/-- The shapes of all writes a plan issues against a live roster, in
order. -/
def plannedWrites (l : Entries) (chans : List LChannel) :
    List (Int × Int × WriteOp) :=
  (l.map (fun pe => chanWrites chans pe.1 pe.2)).flatten

-- ---------------------------------------------------------------------------
-- Differ (sync.py:398-438)
-- ---------------------------------------------------------------------------

/-- One output line of diff_permission_plan, by shape: the warning line
for a plan channel missing from Discord (sync.py:417), a stale-removal
line (sync.py:426-428), or a per-entry changed/unchanged line
(sync.py:431-436, changed = the current overwrite differs or is absent). -/
inductive DiffLine where
  | chanNotFound (channelId : Int)
  | removal (channelName targetName : String)
  | entryLine (changed : Bool) (channelName targetName source : String)
  deriving Repr, DecidableEq

def DiffLine.isRemoval : DiffLine → Bool
  | .removal _ _ => true
  | _ => false

def DiffLine.isEntryLine : DiffLine → Bool
  | .entryLine _ _ _ _ => true
  | _ => false

/-- current_overwrites.get(entry.target): dict lookup keyed by Discord
object, i.e. by id. -/
def owsLookup (ows : List (DObj × Overwrite)) (t : DObj) : Option Overwrite :=
  (ows.reverse.find? (fun p => p.1.id == t.id)).map (·.2)

/-- The per-channel body of diff_permission_plan (sync.py:414-436): the
missing-channel warning, or the stale-removal lines followed by the
per-entry lines. -/
def diffChannelLines (byId : List (Int × LChannel)) (tid : Int)
    (entries : List OverwriteEntry) : List DiffLine :=
  match dictGet byId tid with
  | none => [.chanNotFound tid]
  | some ch =>
      let plannedTargets := entries.map (·.target)
      (ch.overwrites.filter (fun p => !(memTargets p.1 plannedTargets))).map
        (fun p => .removal ch.name p.1.name)
      ++ entries.map (fun e =>
          .entryLine (decide (owsLookup ch.overwrites e.target ≠ some e.overwrite))
            ch.name e.target.name e.source)

/-- Embedding of diff_permission_plan (sync.py:398-438): iterate the plan
in insertion order, appending each channel's lines. -/
def diffPermissionPlan (plan : PermissionPlan) (chans : List LChannel) :
    List DiffLine :=
  let byId := chans.map (fun c => (c.id, c))
  plan.entries.foldl (fun lines pe => lines ++ diffChannelLines byId pe.1 pe.2) []

-- ---------------------------------------------------------------------------
-- Concrete fixtures used by counterexamples and witnesses
-- ---------------------------------------------------------------------------

/-- The Chat level of the end-to-end scenario. -/
def chatLevels : List (String × Overwrite) :=
  [("Chat", [("viewChannel", true), ("sendMessages", true)])]

def everyoneRole : DObj := ⟨1, "@everyone"⟩
def teamRole : DObj := ⟨10, "Team"⟩

/-- An Airtable role record pointing at teamRole by Discord id. -/
def teamRoleRec : ATRecord :=
  ⟨"recRole", [(RoleFields.DISCORD_ID, "10"), (RoleFields.NAME, "Team")]⟩

/-- An Airtable channel record pointing at live channel 200. -/
def chatChanRec : ATRecord :=
  ⟨"recChan", [(ChannelFields.DISCORD_ID, "200"), (ChannelFields.NAME, "chat")]⟩

/-- An Airtable category record with a Chat baseline, pointing at live
category 100. -/
def genCatRec : ATRecord :=
  ⟨"recCat", [(CategoryFields.DISCORD_ID, "100"), (CategoryFields.NAME, "Gen"),
              (CategoryFields.BASELINE, "Chat")]⟩

/-- One access rule granting Chat to the Team role on channel 200. -/
def chatRule : ARRecord :=
  { rid := "recRule1", roleRefs := ["recRole"], scope := "Channel",
    chRefs := ["recChan"], levelName := "Chat" }

/-- A second, identical access rule (different record id). -/
def chatRule2 : ARRecord := { chatRule with rid := "recRule2" }

def fixtureGuild : Guild :=
  { roles := [everyoneRole, teamRole],
    categories := [⟨100, "Gen", []⟩],
    textChannels := [⟨200, "chat", []⟩],
    defaultRole := everyoneRole }

/-- A fully-reachable record store with one category, one role, one
channel and two identical access rules. -/
def dupRuleEnv : StoreEnv :=
  { configured := true,
    remoteRoles := some [teamRoleRec],
    remoteCats := some [genCatRec],
    remoteChans := some [chatChanRec],
    remoteRules := some [chatRule, chatRule2] }

example :
    (buildPermissionPlan dupRuleEnv chatLevels fixtureGuild).toOption.map
      (fun r => r.1.entries) =
    some
      [(100, [⟨everyoneRole, [("viewChannel", true), ("sendMessages", true)],
               "@everyone baseline → Chat"⟩]),
       (200, [⟨teamRole, [("viewChannel", true), ("sendMessages", true)],
               "Team → Chat (Allow)"⟩,
              ⟨teamRole, [("viewChannel", true), ("sendMessages", true)],
               "Team → Chat (Allow)"⟩])] := by decide

example : parseInt? "0" = some 0 := by decide
example : parseInt? "123" = some 123 := by decide
example : parseInt? "abc" = none := by decide
example : parseInt? "" = none := by decide
example : parseInt? "-5" = some (-5) := by decide

example :
    resolveRec ⟨"recA", [("Discord ID", "5"), ("Name", "alpha")]⟩
      "Discord ID" "Name" [] [("alpha", ⟨7, "alpha"⟩)] "roles" "role" =
    ⟨none, [], [.deleted "role" "alpha" 5]⟩ := by decide

example :
    resolveRec ⟨"recA", [("Discord ID", "0"), ("Name", "alpha")]⟩
      "Discord ID" "Name" [] [("alpha", ⟨7, "alpha"⟩)] "roles" "role" =
    ⟨some ⟨7, "alpha"⟩, [("roles", "recA", [("Discord ID", "7")])], []⟩ := by decide

example :
    applyPermissionPlan okOracle
      ⟨[(100, [⟨everyoneRole, [("viewChannel", true)], "@everyone baseline → Chat"⟩])], []⟩
      [⟨100, "Gen", [(teamRole, [("sendMessages", false)])]⟩] =
    { chans := [⟨100, "Gen", [(everyoneRole, [("viewChannel", true)])]⟩],
      applied := 1, removed := 1, errors := 0,
      writes := [⟨100, 10, .remove, true, 0⟩,
                 ⟨100, 1, .set [("viewChannel", true)], true, 0⟩] } := by decide

example :
    diffPermissionPlan
      ⟨[(100, [⟨everyoneRole, [("viewChannel", true)], "@everyone baseline → Chat"⟩]),
        (555, [⟨teamRole, [], "x"⟩])], []⟩
      [⟨100, "Gen", [(teamRole, [("sendMessages", false)])]⟩] =
    [.removal "Gen" "Team",
     .entryLine true "Gen" "@everyone" "@everyone baseline → Chat",
     .chanNotFound 555] := by decide

-- ---------------------------------------------------------------------------
-- Helper lemmas
-- ---------------------------------------------------------------------------

theorem dictGet_map_val [BEq α] (l : List (α × β)) (g : β → γ) (k : α) :
    dictGet (l.map (fun p => (p.1, g p.2))) k = (dictGet l k).map g := by
  unfold dictGet
  rw [← List.map_reverse]
  induction l.reverse with
  | nil => rfl
  | cons p t ih =>
      simp only [List.map_cons, List.find?]
      cases h : p.1 == k
      · simp only [h]
        exact ih
      · simp only [h, Option.map_some']

theorem dictGet_append [BEq α] (l₁ l₂ : List (α × β)) (k : α) :
    dictGet (l₁ ++ l₂) k = (dictGet l₂ k).or (dictGet l₁ k) := by
  unfold dictGet
  rw [List.reverse_append, List.find?_append]
  cases l₂.reverse.find? fun p => p.1 == k <;> simp

theorem dictGet_eq_none [BEq α] {l : List (α × β)} {k : α} :
    dictGet l k = none ↔ ∀ p ∈ l, ¬(p.1 == k) := by
  unfold dictGet
  simp [List.find?_eq_none, List.mem_reverse]

theorem dictGet_cons [BEq α] (p : α × β) (l : List (α × β)) (k : α) :
    dictGet (p :: l) k = (dictGet l k).or (if p.1 == k then some p.2 else none) := by
  have h : p :: l = [p] ++ l := rfl
  rw [h, dictGet_append]
  have h2 : dictGet [p] k = if p.1 == k then some p.2 else none := by
    unfold dictGet
    cases hb : p.1 == k <;> simp [List.find?, hb]
  rw [h2]

theorem parseInt?_empty : parseInt? "" = none := rfl

theorem parseInt?_zero : parseInt? "0" = some 0 := by decide

-- ---------------------------------------------------------------------------
-- C4 — Deny inversion
-- ---------------------------------------------------------------------------

/-- C4: under rule direction Deny the Plan Builder uses the inverted
level: every flag explicitly set to allow reads back as an explicit deny,
every explicit deny as an explicit allow, and an omitted (inherited) flag
stays omitted — the tri-state read of the final overwrite is exactly the
negation-under-map of the base level's read. -/
theorem deny_direction_inverts_explicit_flags (ow : Overwrite) (flag : String) :
    owGet (finalOverwrite ow "Deny") flag = (owGet ow flag).map (fun b => !b) := by
  have h : finalOverwrite ow "Deny" = invertOverwrite ow := by
    simp [finalOverwrite]
  rw [h]
  exact dictGet_map_val ow (fun b => !b) flag

-- ---------------------------------------------------------------------------
-- C8 — resolution priority: name drift queues exactly one update
-- ---------------------------------------------------------------------------

/-- C8: a record whose stored Discord id parses to a non-zero id present
in the by-id index resolves to that live object; if the live name differs
from the stored name exactly one name-correction update is queued, and if
they match no update is queued. -/
theorem resolve_name_drift_queues_one_update
    (rec : ATRecord) (idField nameField : String)
    (byId : List (Int × DObj)) (byName : List (String × DObj))
    (tableKey kind : String) (n : Int) (obj : DObj)
    (hparse : parseInt? (getField rec idField) = some n)
    (hnz : n ≠ 0)
    (hfound : dictGet byId n = some obj) :
    (obj.name ≠ getField rec nameField →
      (resolveRec rec idField nameField byId byName tableKey kind).obj = some obj ∧
      (resolveRec rec idField nameField byId byName tableKey kind).updates =
        [(tableKey, rec.rid, [(nameField, obj.name)])]) ∧
    (obj.name = getField rec nameField →
      (resolveRec rec idField nameField byId byName tableKey kind).obj = some obj ∧
      (resolveRec rec idField nameField byId byName tableKey kind).updates = []) := by
  have hne : getField rec idField ≠ "" := by
    intro h
    rw [h, parseInt?_empty] at hparse
    exact Option.noConfusion hparse
  constructor
  · intro hdrift
    simp [resolveRec, hne, hparse, hnz, hfound, hdrift]
  · intro hsame
    simp [resolveRec, hne, hparse, hnz, hfound, hsame]

/-- Witness for the name-drift theorem at a concrete drifted record. -/
theorem resolve_name_drift_queues_one_update_witness :
    (resolveRec ⟨"recB", [("Discord ID", "7"), ("Name", "old")]⟩
        "Discord ID" "Name" [(7, ⟨7, "new"⟩)] [] "roles" "role").obj =
      some ⟨7, "new"⟩ ∧
    (resolveRec ⟨"recB", [("Discord ID", "7"), ("Name", "old")]⟩
        "Discord ID" "Name" [(7, ⟨7, "new"⟩)] [] "roles" "role").updates =
      [("roles", "recB", [("Name", "new")])] :=
  (resolve_name_drift_queues_one_update
      ⟨"recB", [("Discord ID", "7"), ("Name", "old")]⟩ "Discord ID" "Name"
      [(7, ⟨7, "new"⟩)] [] "roles" "role" 7 ⟨7, "new"⟩
      (by decide) (by decide) (by decide)).1 (by decide)

-- ---------------------------------------------------------------------------
-- C10 — a stored Discord ID of "0" behaves like no ID at all
-- ---------------------------------------------------------------------------

/-- C10: a record whose id field holds the string "0" resolves exactly
like the same record with an empty id field: the full result (object,
queued updates, warnings) coincides, no invalid-ID or deleted-object
warning is emitted, and a name match queues the identifier backfill. -/
theorem zero_id_resolves_like_missing_id
    (rec recEmpty : ATRecord) (idField nameField : String)
    (byId : List (Int × DObj)) (byName : List (String × DObj))
    (tableKey kind : String)
    (hz : getField rec idField = "0")
    (h0 : getField recEmpty idField = "")
    (hname : getField recEmpty nameField = getField rec nameField)
    (hrid : recEmpty.rid = rec.rid) :
    resolveRec rec idField nameField byId byName tableKey kind =
      resolveRec recEmpty idField nameField byId byName tableKey kind ∧
    (resolveRec rec idField nameField byId byName tableKey kind).log.all
      (fun e => !e.isInvalidId && !e.isDeleted) = true ∧
    (∀ obj, dictGet byName (getField rec nameField) = some obj →
      getField rec nameField ≠ "" →
      (resolveRec rec idField nameField byId byName tableKey kind).updates =
        [(tableKey, rec.rid, [(idField, toString obj.id)])]) := by
  have hred : resolveRec rec idField nameField byId byName tableKey kind =
      nameFallback rec idField nameField byName tableKey kind := by
    simp [resolveRec, hz, parseInt?_zero]
  have hred0 : resolveRec recEmpty idField nameField byId byName tableKey kind =
      nameFallback recEmpty idField nameField byName tableKey kind := by
    simp [resolveRec, h0]
  refine ⟨?_, ?_, ?_⟩
  · rw [hred, hred0]
    unfold nameFallback
    rw [hname, hrid]
  · rw [hred]
    unfold nameFallback
    by_cases hn : getField rec nameField = ""
    · simp [hn]
    · rcases hfind : dictGet byName (getField rec nameField) with _ | obj <;>
        simp [hn, hfind, LogEvent.isInvalidId, LogEvent.isDeleted]
  · intro obj hfind hnonempty
    rw [hred]
    unfold nameFallback
    rw [if_neg hnonempty, hfind]

/-- Witness for the zero-id theorem at a concrete record pair. -/
theorem zero_id_resolves_like_missing_id_witness :
    resolveRec ⟨"recZ", [("Discord ID", "0"), ("Name", "alpha")]⟩
        "Discord ID" "Name" [] [("alpha", ⟨7, "alpha"⟩)] "roles" "role" =
      resolveRec ⟨"recZ", [("Name", "alpha")]⟩
        "Discord ID" "Name" [] [("alpha", ⟨7, "alpha"⟩)] "roles" "role" ∧
    (resolveRec ⟨"recZ", [("Discord ID", "0"), ("Name", "alpha")]⟩
        "Discord ID" "Name" [] [("alpha", ⟨7, "alpha"⟩)] "roles" "role").log.all
      (fun e => !e.isInvalidId && !e.isDeleted) = true ∧
    (resolveRec ⟨"recZ", [("Discord ID", "0"), ("Name", "alpha")]⟩
        "Discord ID" "Name" [] [("alpha", ⟨7, "alpha"⟩)] "roles" "role").updates =
      [("roles", "recZ", [("Discord ID", "7")])] := by
  have h := zero_id_resolves_like_missing_id
    ⟨"recZ", [("Discord ID", "0"), ("Name", "alpha")]⟩
    ⟨"recZ", [("Name", "alpha")]⟩ "Discord ID" "Name"
    [] [("alpha", ⟨7, "alpha"⟩)] "roles" "role"
    (by decide) (by decide) (by decide) (by decide)
  exact ⟨h.1, h.2.1, h.2.2 ⟨7, "alpha"⟩ (by decide) (by decide)⟩

-- ---------------------------------------------------------------------------
-- C1 — corrected: a valid-but-missing ID does NOT fall back to the name
-- ---------------------------------------------------------------------------

/-- C1 counterexample: a record with a valid stored id (5) absent from the
by-id index and a non-empty display name present in the by-name index.
The resolver returns unresolved with only the deleted-object warning and
queues nothing, although the by-name index holds a match — so no name
lookup happened, contradicting the claim that it falls back to the name. -/
theorem valid_missing_id_counterexample :
    resolveRec ⟨"recA", [("Discord ID", "5"), ("Name", "alpha")]⟩
        "Discord ID" "Name" [] [("alpha", ⟨7, "alpha"⟩)] "roles" "role" =
      ⟨none, [], [.deleted "role" "alpha" 5]⟩ ∧
    getField ⟨"recA", [("Discord ID", "5"), ("Name", "alpha")]⟩ "Name" = "alpha" ∧
    dictGet [("alpha", (⟨7, "alpha"⟩ : DObj))] "alpha" = some ⟨7, "alpha"⟩ := by
  decide

/-- C1 amended: the resolver falls back to the by-name lookup only when
the stored identifier is absent, unparsable, or parses to zero; a valid
non-zero identifier that is missing from the by-identifier index returns
unresolved immediately — warning, no updates, no name lookup. -/
theorem resolve_fallback_conditions
    (rec : ATRecord) (idField nameField : String)
    (byId : List (Int × DObj)) (byName : List (String × DObj))
    (tableKey kind : String) :
    (parseInt? (getField rec idField) = none →
      getField rec nameField ≠ "" →
      (resolveRec rec idField nameField byId byName tableKey kind).obj =
        dictGet byName (getField rec nameField)) ∧
    (parseInt? (getField rec idField) = some 0 →
      getField rec nameField ≠ "" →
      (resolveRec rec idField nameField byId byName tableKey kind).obj =
        dictGet byName (getField rec nameField)) ∧
    (∀ n, parseInt? (getField rec idField) = some n → n ≠ 0 →
      dictGet byId n = none →
      resolveRec rec idField nameField byId byName tableKey kind =
        ⟨none, [], [.deleted kind (getField rec nameField) n]⟩) := by
  refine ⟨?_, ?_, ?_⟩
  · intro hparse hnonempty
    by_cases hid : getField rec idField = ""
    · simp only [resolveRec, hid]
      simp [nameFallback, hnonempty]
      rcases hfind : dictGet byName (getField rec nameField) with _ | obj <;>
        simp [hfind]
    · simp only [resolveRec]
      rw [if_pos (by exact hid), hparse]
      simp [nameFallback, hnonempty]
      rcases hfind : dictGet byName (getField rec nameField) with _ | obj <;>
        simp [hfind]
  · intro hparse hnonempty
    have hid : getField rec idField ≠ "" := by
      intro h
      rw [h, parseInt?_empty] at hparse
      exact Option.noConfusion hparse
    simp only [resolveRec]
    rw [if_pos (by exact hid), hparse]
    simp [nameFallback, hnonempty]
    rcases hfind : dictGet byName (getField rec nameField) with _ | obj <;>
      simp [hfind]
  · intro n hparse hnz hmiss
    have hid : getField rec idField ≠ "" := by
      intro h
      rw [h, parseInt?_empty] at hparse
      exact Option.noConfusion hparse
    simp [resolveRec, hid, hparse, hnz, hmiss]

/-- Witness for the amended C1 theorem: an unparsable id with a matching
name falls back and finds the object. -/
theorem resolve_fallback_conditions_witness :
    (resolveRec ⟨"recA", [("Discord ID", "oops"), ("Name", "alpha")]⟩
        "Discord ID" "Name" [] [("alpha", ⟨7, "alpha"⟩)] "roles" "role").obj =
      dictGet [("alpha", (⟨7, "alpha"⟩ : DObj))] "alpha" :=
  (resolve_fallback_conditions
      ⟨"recA", [("Discord ID", "oops"), ("Name", "alpha")]⟩ "Discord ID" "Name"
      [] [("alpha", ⟨7, "alpha"⟩)] "roles" "role").1 (by decide) (by decide)

-- ---------------------------------------------------------------------------
-- C7 — configuration errors are fatal, resolution misses are not
-- ---------------------------------------------------------------------------

theorem fetchTable_avail {α : Type} {remote disk : Option α} (key : String)
    (h : remote ≠ none ∨ disk ≠ none) :
    ∃ d, fetchTable remote disk key = .ok d := by
  rcases remote with _ | d
  · rcases disk with _ | d
    · rcases h with h | h <;> exact absurd rfl h
    · exact ⟨d, rfl⟩
  · exact ⟨d, rfl⟩

theorem fetchTable_ok_implies {α : Type} {remote disk : Option α} {key : String}
    {d : α} (h : fetchTable remote disk key = .ok d) :
    remote ≠ none ∨ disk ≠ none := by
  rcases remote with _ | r
  · rcases disk with _ | x
    · exact Except.noConfusion h
    · exact Or.inr (by simp)
  · exact Or.inl (by simp)

theorem build_ok_implies {env : StoreEnv} {levels : List (String × Overwrite)}
    {g : Guild} {res : PermissionPlan × List LogEvent}
    (h : buildPermissionPlan env levels g = .ok res) :
    env.configured = true ∧
    (env.remoteRoles ≠ none ∨ env.diskRoles ≠ none) ∧
    (env.remoteCats ≠ none ∨ env.diskCats ≠ none) ∧
    (env.remoteChans ≠ none ∨ env.diskChans ≠ none) ∧
    (env.remoteRules ≠ none ∨ env.diskRules ≠ none) := by
  unfold buildPermissionPlan at h
  cases hc : env.configured
  · rw [hc] at h
    exact Except.noConfusion h
  · rw [hc] at h
    simp only [Bool.not_true, Bool.false_eq_true, if_false] at h
    rcases h1 : fetchTable env.remoteRoles env.diskRoles "roles" with e | d1 <;>
      rw [h1] at h
    · exact Except.noConfusion h
    rcases h2 : fetchTable env.remoteCats env.diskCats "categories" with e | d2 <;>
      rw [h2] at h
    · exact Except.noConfusion h
    rcases h3 : fetchTable env.remoteChans env.diskChans "channels" with e | d3 <;>
      rw [h3] at h
    · exact Except.noConfusion h
    rcases h4 : fetchTable env.remoteRules env.diskRules "access_rules" with e | d4 <;>
      rw [h4] at h
    · exact Except.noConfusion h
    exact ⟨rfl, fetchTable_ok_implies h1, fetchTable_ok_implies h2,
           fetchTable_ok_implies h3, fetchTable_ok_implies h4⟩

/-- C7: the Plan Builder surfaces a configuration error — guild not
configured, or a table neither fetchable nor disk-cached — as a
RuntimeError (an error value carrying the message, so no partial plan can
reach the caller), while a pass with the store reachable always returns a
plan: per-record resolution misses never raise. -/
theorem build_config_error_is_fatal (env : StoreEnv)
    (levels : List (String × Overwrite)) (g : Guild) :
    (env.configured = false → ∃ e, buildPermissionPlan env levels g = .error e) ∧
    (env.remoteRoles = none → env.diskRoles = none →
      ∃ e, buildPermissionPlan env levels g = .error e) ∧
    (env.remoteCats = none → env.diskCats = none →
      ∃ e, buildPermissionPlan env levels g = .error e) ∧
    (env.remoteChans = none → env.diskChans = none →
      ∃ e, buildPermissionPlan env levels g = .error e) ∧
    (env.remoteRules = none → env.diskRules = none →
      ∃ e, buildPermissionPlan env levels g = .error e) ∧
    (env.configured = true →
      env.remoteRoles ≠ none ∨ env.diskRoles ≠ none →
      env.remoteCats ≠ none ∨ env.diskCats ≠ none →
      env.remoteChans ≠ none ∨ env.diskChans ≠ none →
      env.remoteRules ≠ none ∨ env.diskRules ≠ none →
      ∃ p, buildPermissionPlan env levels g = .ok p) := by
  have herr : ∀ P : StoreEnv → Prop,
      (∀ res, buildPermissionPlan env levels g = .ok res → P env → False) →
      P env → ∃ e, buildPermissionPlan env levels g = .error e := by
    intro P hcontra hp
    cases hb : buildPermissionPlan env levels g with
    | error e => exact ⟨e, rfl⟩
    | ok res => exact absurd hp (fun hp => hcontra res hb hp)
  refine ⟨?_, ?_, ?_, ?_, ?_, ?_⟩
  · intro hconf
    refine herr (fun env => env.configured = false) ?_ hconf
    intro res hb hp
    rw [(build_ok_implies hb).1] at hp
    exact Bool.noConfusion hp
  · intro hr hd
    refine herr (fun env => env.remoteRoles = none ∧ env.diskRoles = none) ?_ ⟨hr, hd⟩
    intro res hb hp
    rcases (build_ok_implies hb).2.1 with hx | hx <;> [exact hx hp.1; exact hx hp.2]
  · intro hr hd
    refine herr (fun env => env.remoteCats = none ∧ env.diskCats = none) ?_ ⟨hr, hd⟩
    intro res hb hp
    rcases (build_ok_implies hb).2.2.1 with hx | hx <;> [exact hx hp.1; exact hx hp.2]
  · intro hr hd
    refine herr (fun env => env.remoteChans = none ∧ env.diskChans = none) ?_ ⟨hr, hd⟩
    intro res hb hp
    rcases (build_ok_implies hb).2.2.2.1 with hx | hx <;> [exact hx hp.1; exact hx hp.2]
  · intro hr hd
    refine herr (fun env => env.remoteRules = none ∧ env.diskRules = none) ?_ ⟨hr, hd⟩
    intro res hb hp
    rcases (build_ok_implies hb).2.2.2.2 with hx | hx <;> [exact hx hp.1; exact hx hp.2]
  · intro hconf ha1 ha2 ha3 ha4
    obtain ⟨d1, hf1⟩ := fetchTable_avail "roles" ha1
    obtain ⟨d2, hf2⟩ := fetchTable_avail "categories" ha2
    obtain ⟨d3, hf3⟩ := fetchTable_avail "channels" ha3
    obtain ⟨d4, hf4⟩ := fetchTable_avail "access_rules" ha4
    cases hb : buildPermissionPlan env levels g with
    | ok p => exact ⟨p, rfl⟩
    | error e =>
        exfalso
        unfold buildPermissionPlan at hb
        rw [hconf] at hb
        simp only [Bool.not_true, Bool.false_eq_true, if_false] at hb
        rw [hf1, hf2, hf3, hf4] at hb
        exact Except.noConfusion hb

/-- Witness for the configuration-error theorem: an unconfigured store
fails, and the fully-reachable fixture store builds a plan. -/
theorem build_config_error_is_fatal_witness :
    exceptOk (buildPermissionPlan { configured := false } chatLevels fixtureGuild)
      = false ∧
    exceptOk (buildPermissionPlan dupRuleEnv chatLevels fixtureGuild) = true := by
  constructor
  · obtain ⟨e, he⟩ :=
      (build_config_error_is_fatal { configured := false } chatLevels fixtureGuild).1 rfl
    rw [he]
    rfl
  · obtain ⟨p, hp⟩ :=
      (build_config_error_is_fatal dupRuleEnv chatLevels fixtureGuild).2.2.2.2.2
        rfl (Or.inl (by decide)) (Or.inl (by decide)) (Or.inl (by decide))
        (Or.inl (by decide))
    rw [hp]
    rfl

-- ---------------------------------------------------------------------------
-- C3 — corrected: a channel list can hold two entries for one target
-- ---------------------------------------------------------------------------

/-- C3 counterexample: two access rules referencing the same role and the
same channel make the Plan Builder put two OverwriteEntries with the same
target into channel 200's list. -/
theorem plan_duplicate_target_counterexample :
    (match buildPermissionPlan dupRuleEnv chatLevels fixtureGuild with
     | .ok r => (dictGet r.1.entries 200).map (fun es => es.map (·.target))
     | .error _ => none) = some [teamRole, teamRole] := by decide

theorem addEntry_lookup_other (es : Entries) (tid : Int) (e : OverwriteEntry)
    (c : Int) (hne : c ≠ tid) :
    dictGet (addEntry es tid e) c = dictGet es c := by
  induction es with
  | nil =>
      simp [addEntry, dictGet_cons, dictGet, Ne.symm hne]
  | cons p t ih =>
      rcases p with ⟨k, l⟩
      by_cases hk : k = tid
      · rw [addEntry, if_pos hk, dictGet_cons, dictGet_cons]
        have hb : (k == c) = false := by
          rw [hk]
          exact beq_eq_false_iff_ne.mpr (fun h => hne h.symm)
        simp [hb]
      · rw [addEntry, if_neg hk, dictGet_cons, dictGet_cons, ih]

theorem addEntry_lookup_self (es : Entries) (tid : Int) (e : OverwriteEntry)
    (hnd : (es.map Prod.fst).Nodup) :
    dictGet (addEntry es tid e) tid = some ((dictGet es tid).getD [] ++ [e]) := by
  induction es with
  | nil => simp [addEntry, dictGet_cons, dictGet]
  | cons p t ih =>
      rcases p with ⟨k, l⟩
      have hnd' : (t.map Prod.fst).Nodup := (List.nodup_cons.mp hnd).2
      have hknot : k ∉ t.map Prod.fst := (List.nodup_cons.mp hnd).1
      by_cases hk : k = tid
      · rw [addEntry, if_pos hk, dictGet_cons, dictGet_cons]
        have hzero : dictGet t tid = none := by
          apply dictGet_eq_none.mpr
          intro q hq hbeq
          exact hknot (by
            rw [hk, ← eq_of_beq hbeq]
            exact List.mem_map_of_mem Prod.fst hq)
        have hb : (k == tid) = true := by
          rw [hk]
          exact beq_self_eq_true tid
        simp [hzero, hb]
      · rw [addEntry, if_neg hk, dictGet_cons, dictGet_cons, ih hnd']
        have hb : (k == tid) = false := beq_eq_false_iff_ne.mpr hk
        simp [hb]

/-- C3 amended: a channel's entry list is NOT deduplicated by target —
PermissionPlan.add appends the new entry at the end of exactly the one
channel list it addresses, preserving every earlier entry for that channel
(so two rules contributing the same target yield two coexisting entries,
the later one last) and leaving every other channel's list unchanged. -/
theorem plan_add_appends_without_dedup (p : PermissionPlan) (tid : Int)
    (e : OverwriteEntry) (hnd : (p.entries.map Prod.fst).Nodup) :
    dictGet (p.add tid e).entries tid =
      some ((dictGet p.entries tid).getD [] ++ [e]) ∧
    ∀ c, c ≠ tid → dictGet (p.add tid e).entries c = dictGet p.entries c :=
  ⟨addEntry_lookup_self p.entries tid e hnd,
   fun c hne => addEntry_lookup_other p.entries tid e c hne⟩

/-- Witness for the no-dedup append theorem at a concrete plan that
already holds an entry for the target channel. -/
theorem plan_add_appends_without_dedup_witness :
    dictGet ((PermissionPlan.mk [(200, [⟨teamRole, [], "first"⟩])] []).add 200
        ⟨teamRole, [], "second"⟩).entries 200 =
      some [⟨teamRole, [], "first"⟩, ⟨teamRole, [], "second"⟩] ∧
    dictGet ((PermissionPlan.mk [(200, [⟨teamRole, [], "first"⟩])] []).add 200
        ⟨teamRole, [], "second"⟩).entries 100 =
      dictGet (PermissionPlan.mk [(200, [⟨teamRole, [], "first"⟩])] []).entries 100 := by
  have h := plan_add_appends_without_dedup
    (PermissionPlan.mk [(200, [⟨teamRole, [], "first"⟩])] []) 200
    ⟨teamRole, [], "second"⟩ (by decide)
  exact ⟨by rw [h.1]; decide, h.2 100 (by decide)⟩

-- ---------------------------------------------------------------------------
-- C6 — Differ output structure
-- ---------------------------------------------------------------------------

theorem foldl_append_blocks (f : α → List β) (l : List α) (init : List β) :
    l.foldl (fun acc x => acc ++ f x) init = init ++ (l.map f).flatten := by
  induction l generalizing init with
  | nil => simp
  | cons x t ih => simp [ih, List.append_assoc]

/-- C6: the Differ's output is the concatenation, in Plan insertion order,
of per-channel blocks; a plan channel missing from the live platform
contributes exactly the one not-found warning line (no per-entry lines);
a present channel's block is its stale-removal lines followed by exactly
one changed/unchanged line per planned entry. -/
theorem diff_output_structure (plan : PermissionPlan) (chans : List LChannel) :
    diffPermissionPlan plan chans =
      (plan.entries.map (fun pe =>
        diffChannelLines (chans.map (fun c => (c.id, c))) pe.1 pe.2)).flatten ∧
    (∀ tid es, dictGet (chans.map (fun c => (c.id, c))) tid = none →
      diffChannelLines (chans.map (fun c => (c.id, c))) tid es =
        [.chanNotFound tid]) ∧
    (∀ tid es ch, dictGet (chans.map (fun c => (c.id, c))) tid = some ch →
      ∃ rs ps, diffChannelLines (chans.map (fun c => (c.id, c))) tid es = rs ++ ps ∧
        (∀ l ∈ rs, l.isRemoval = true) ∧
        ps.length = es.length ∧
        (∀ l ∈ ps, l.isEntryLine = true)) := by
  refine ⟨?_, ?_, ?_⟩
  · unfold diffPermissionPlan
    exact foldl_append_blocks _ plan.entries []
  · intro tid es hnone
    unfold diffChannelLines
    rw [hnone]
  · intro tid es ch hsome
    unfold diffChannelLines
    rw [hsome]
    refine ⟨_, _, rfl, ?_, List.length_map es _, ?_⟩
    · intro l hl
      obtain ⟨q, _, hq⟩ := List.mem_map.mp hl
      rw [← hq]
      rfl
    · intro l hl
      obtain ⟨q, _, hq⟩ := List.mem_map.mp hl
      rw [← hq]
      rfl

/-- Witness for the Differ structure theorem on a concrete plan holding
one live channel and one channel missing from Discord. -/
theorem diff_output_structure_witness :
    diffChannelLines
        ([⟨100, "Gen", [(teamRole, [("sendMessages", false)])]⟩].map
          (fun c => (c.id, c))) 555 [⟨teamRole, [], "x"⟩] =
      [.chanNotFound 555] ∧
    ∃ rs ps,
      diffChannelLines
          ([⟨100, "Gen", [(teamRole, [("sendMessages", false)])]⟩].map
            (fun c => (c.id, c))) 100
          [⟨everyoneRole, [("viewChannel", true)], "@everyone baseline → Chat"⟩] =
        rs ++ ps ∧
      (∀ l ∈ rs, l.isRemoval = true) ∧
      ps.length = 1 ∧
      (∀ l ∈ ps, l.isEntryLine = true) := by
  have h := diff_output_structure
    ⟨[(100, [⟨everyoneRole, [("viewChannel", true)], "@everyone baseline → Chat"⟩]),
      (555, [⟨teamRole, [], "x"⟩])], []⟩
    [⟨100, "Gen", [(teamRole, [("sendMessages", false)])]⟩]
  exact ⟨h.2.1 555 [⟨teamRole, [], "x"⟩] (by decide),
         h.2.2 100 [⟨everyoneRole, [("viewChannel", true)], "@everyone baseline → Chat"⟩]
           ⟨100, "Gen", [(teamRole, [("sendMessages", false)])]⟩ (by decide)⟩

-- ---------------------------------------------------------------------------
-- Applier infrastructure: generic lemmas
-- ---------------------------------------------------------------------------

theorem foldl_preserve (P : σ → Prop) (step : σ → α → σ)
    (hstep : ∀ s x, P s → P (step s x)) :
    ∀ (l : List α) (s : σ), P s → P (l.foldl step s) := by
  intro l
  induction l with
  | nil => intro s h; exact h
  | cons x t ih => intro s h; exact ih (step s x) (hstep s x h)

theorem updateChan_ids (chans : List LChannel) (cid : Int) (f : LChannel → LChannel)
    (hf : ∀ c, (f c).id = c.id) :
    (updateChan chans cid f).map (·.id) = chans.map (·.id) := by
  unfold updateChan
  rw [List.map_map]
  apply List.map_congr_left
  intro c _
  by_cases h : c.id = cid
  · simp [h, hf]
  · simp [h]

theorem updateChan_comp (chans : List LChannel) (cid : Int)
    (f g : LChannel → LChannel) (hf : ∀ c, (f c).id = c.id) :
    updateChan (updateChan chans cid f) cid g =
      updateChan chans cid (fun c => g (f c)) := by
  unfold updateChan
  rw [List.map_map]
  apply List.map_congr_left
  intro c _
  by_cases h : c.id = cid
  · simp [h, hf]
  · simp [h]

theorem updateChan_id_fun (chans : List LChannel) (cid : Int) :
    updateChan chans cid (fun c => c) = chans := by
  unfold updateChan
  simp

theorem chanGet_some (chans : List LChannel) (tid : Int) (ch : LChannel)
    (h : chanGet chans tid = some ch) : ch.id = tid ∧ ch ∈ chans := by
  unfold chanGet dictGet at h
  rcases hf : (chans.map fun c => (c.id, c)).reverse.find? (fun p => p.1 == tid)
    with _ | q
  · rw [hf] at h
    exact Option.noConfusion h
  · rw [hf] at h
    have hq := List.find?_some hf
    have hmem : q ∈ (chans.map fun c => (c.id, c)).reverse := List.mem_of_find?_eq_some hf
    rw [List.mem_reverse, List.mem_map] at hmem
    obtain ⟨c, hc, hqc⟩ := hmem
    have hqv : q.2 = ch := by
      simpa using h
    have hid : q.1 = tid := by
      exact eq_of_beq hq
    constructor
    · rw [← hqv, ← hqc]
      rw [← hqc] at hid
      exact hid
    · rw [← hqv, ← hqc]
      exact hc

theorem chanGet_none_iff (chans : List LChannel) (tid : Int) :
    chanGet chans tid = none ↔ tid ∉ chans.map (·.id) := by
  unfold chanGet
  rw [dictGet_eq_none]
  constructor
  · intro h hmem
    rw [List.mem_map] at hmem
    obtain ⟨c, hc, hid⟩ := hmem
    exact h (c.id, c) (List.mem_map_of_mem _ hc) (by simp [hid])
  · intro h p hp hbeq
    rw [List.mem_map] at hp
    obtain ⟨c, hc, hpc⟩ := hp
    apply h
    rw [List.mem_map]
    refine ⟨c, hc, ?_⟩
    have : p.1 = tid := eq_of_beq hbeq
    rw [← hpc] at this
    exact this

theorem nodup_map_mem_inj {f : α → β} {l : List α}
    (h : (l.map f).Nodup) {a b : α} (ha : a ∈ l) (hb : b ∈ l)
    (hfab : f a = f b) : a = b := by
  induction l with
  | nil => exact absurd ha (List.not_mem_nil a)
  | cons x t ih =>
      rw [List.map_cons, List.nodup_cons] at h
      rcases List.mem_cons.mp ha with rfl | ha' <;>
        rcases List.mem_cons.mp hb with rfl | hb'
      · rfl
      · exact absurd (hfab ▸ List.mem_map_of_mem f hb') h.1
      · exact absurd (hfab ▸ List.mem_map_of_mem f ha') h.1
      · exact ih h.2 ha' hb'

theorem dictGet_of_mem_nodup [BEq α] [LawfulBEq α] {l : List (α × β)}
    {k : α} {v : β} (hnd : (l.map Prod.fst).Nodup) (hmem : (k, v) ∈ l) :
    dictGet l k = some v := by
  induction l with
  | nil => exact absurd hmem (List.not_mem_nil _)
  | cons p t ih =>
      rw [List.map_cons, List.nodup_cons] at hnd
      rw [dictGet_cons]
      rcases List.mem_cons.mp hmem with rfl | hmem'
      · have hzero : dictGet t k = none := by
          apply dictGet_eq_none.mpr
          intro q hq hbeq
          apply hnd.1
          have hm : q.1 ∈ t.map Prod.fst := List.mem_map_of_mem Prod.fst hq
          rwa [eq_of_beq hbeq] at hm
        simp [hzero]
      · rw [ih hnd.2 hmem']
        simp

theorem chanGet_cons (x : LChannel) (t : List LChannel) (c : Int) :
    chanGet (x :: t) c = (chanGet t c).or (if x.id == c then some x else none) := by
  unfold chanGet
  rw [List.map_cons, dictGet_cons]

theorem chanGet_updateChan_other (chans : List LChannel) (cid : Int)
    (f : LChannel → LChannel) (c : Int) (hf : ∀ x, (f x).id = x.id)
    (hne : c ≠ cid) :
    chanGet (updateChan chans cid f) c = chanGet chans c := by
  induction chans with
  | nil => rfl
  | cons x t ih =>
      have hstep : updateChan (x :: t) cid f =
          (if x.id == cid then f x else x) :: updateChan t cid f := by
        simp [updateChan]
      rw [hstep, chanGet_cons, chanGet_cons, ih]
      by_cases hx : x.id = cid
      · simp [hx, hf, Ne.symm hne]
      · simp [hx]

theorem filter_updateChan (chans : List LChannel) (cid : Int)
    (f : LChannel → LChannel) (q : Int → Bool) (hf : ∀ x, (f x).id = x.id)
    (hq : q cid = false) :
    (updateChan chans cid f).filter (fun c => q c.id) =
      chans.filter (fun c => q c.id) := by
  induction chans with
  | nil => rfl
  | cons x t ih =>
      have hstep : updateChan (x :: t) cid f =
          (if x.id == cid then f x else x) :: updateChan t cid f := by
        simp [updateChan]
      rw [hstep]
      by_cases hx : x.id = cid
      · have hqx : q x.id = false := by rw [hx]; exact hq
        rw [List.filter_cons, List.filter_cons]
        simp [hx, hf, hq, ih]
      · rw [List.filter_cons, List.filter_cons]
        simp only [hx, if_false, beq_iff_eq]
        cases hqx : q x.id <;> simp [hqx, ih]

theorem setWithBackoff_ok (i : Nat) : setWithBackoff (okOracle i) 3 = (true, 0) := rfl

theorem applyWrite_ok_eq (st : ApplyState) (cid : Int) (t : DObj) (op : WriteOp) :
    applyWrite okOracle st cid t op =
      { chans := updateChan st.chans cid (fun c =>
          { c with overwrites :=
              match op with
              | .remove => owsRemove c.overwrites t
              | .set ow => owsSet c.overwrites t ow }),
        applied := match op with | .remove => st.applied | .set _ => st.applied + 1,
        removed := match op with | .remove => st.removed + 1 | .set _ => st.removed,
        errors := st.errors,
        writes := st.writes ++ [⟨cid, t.id, op, true, 0⟩] } := by
  cases op <;> rfl

theorem applyWrite_writes (oracle : Nat → Nat → WriteOutcome) (st : ApplyState)
    (cid : Int) (t : DObj) (op : WriteOp) :
    (applyWrite oracle st cid t op).writes =
      st.writes ++ [⟨cid, t.id, op, (setWithBackoff (oracle st.writes.length) 3).1,
                     (setWithBackoff (oracle st.writes.length) 3).2⟩] := by
  simp only [applyWrite]
  rcases hres : setWithBackoff (oracle st.writes.length) 3 with ⟨ok, sl⟩
  cases ok <;> cases op <;> simp

theorem applyWrite_chans_cases (oracle : Nat → Nat → WriteOutcome)
    (st : ApplyState) (cid : Int) (t : DObj) (op : WriteOp) :
    (applyWrite oracle st cid t op).chans = st.chans ∨
    ∃ f : LChannel → LChannel, (∀ x, (f x).id = x.id) ∧
      (applyWrite oracle st cid t op).chans = updateChan st.chans cid f := by
  simp only [applyWrite]
  rcases hres : setWithBackoff (oracle st.writes.length) 3 with ⟨ok, sl⟩
  cases ok
  · left
    simp
  · right
    cases op with
    | remove =>
        exact ⟨fun c => { c with overwrites := owsRemove c.overwrites t },
          fun x => rfl, by simp⟩
    | set ow =>
        exact ⟨fun c => { c with overwrites := owsSet c.overwrites t ow },
          fun x => rfl, by simp⟩

theorem applyWrite_ids (oracle : Nat → Nat → WriteOutcome) (st : ApplyState)
    (cid : Int) (t : DObj) (op : WriteOp) :
    (applyWrite oracle st cid t op).chans.map (·.id) = st.chans.map (·.id) := by
  rcases applyWrite_chans_cases oracle st cid t op with h | ⟨f, hf, h⟩
  · rw [h]
  · rw [h]
    exact updateChan_ids st.chans cid f hf

theorem applyWrite_lookup_other (oracle : Nat → Nat → WriteOutcome)
    (st : ApplyState) (cid : Int) (t : DObj) (op : WriteOp) (c : Int)
    (hne : c ≠ cid) :
    chanGet (applyWrite oracle st cid t op).chans c = chanGet st.chans c := by
  rcases applyWrite_chans_cases oracle st cid t op with h | ⟨f, hf, h⟩
  · rw [h]
  · rw [h]
    exact chanGet_updateChan_other st.chans cid f c hf hne

theorem applyWrite_filter (oracle : Nat → Nat → WriteOutcome) (st : ApplyState)
    (cid : Int) (t : DObj) (op : WriteOp) (q : Int → Bool) (hq : q cid = false) :
    (applyWrite oracle st cid t op).chans.filter (fun c => q c.id) =
      st.chans.filter (fun c => q c.id) := by
  rcases applyWrite_chans_cases oracle st cid t op with h | ⟨f, hf, h⟩
  · rw [h]
  · rw [h]
    exact filter_updateChan st.chans cid f q hf hq

theorem applyWrite_inv (oracle : Nat → Nat → WriteOutcome) (st : ApplyState)
    (cid : Int) (t : DObj) (op : WriteOp)
    (h1 : st.applied = countApplied st.writes)
    (h2 : st.removed = countRemoved st.writes)
    (h3 : st.errors = countErrors st.writes) :
    (applyWrite oracle st cid t op).applied =
      countApplied (applyWrite oracle st cid t op).writes ∧
    (applyWrite oracle st cid t op).removed =
      countRemoved (applyWrite oracle st cid t op).writes ∧
    (applyWrite oracle st cid t op).errors =
      countErrors (applyWrite oracle st cid t op).writes := by
  simp only [applyWrite]
  rcases hres : setWithBackoff (oracle st.writes.length) 3 with ⟨ok, sl⟩
  cases ok <;> cases op <;>
    simp [countApplied, countRemoved, countErrors, List.filter_append,
      WriteOp.isSet, h1, h2, h3]

theorem applyChannel_ids (oracle : Nat → Nat → WriteOutcome) (st : ApplyState)
    (tid : Int) (es : List OverwriteEntry) :
    (applyChannel oracle st tid es).chans.map (·.id) = st.chans.map (·.id) := by
  unfold applyChannel
  cases hch : chanGet st.chans tid with
  | none => rfl
  | some ch =>
      dsimp only
      apply foldl_preserve (fun (s : ApplyState) => s.chans.map (·.id) = st.chans.map (·.id))
      · intro s e hs
        rw [applyWrite_ids]
        exact hs
      · apply foldl_preserve (fun (s : ApplyState) => s.chans.map (·.id) = st.chans.map (·.id))
        · intro s p hs
          by_cases hmem : memTargets p.1 (es.map (·.target))
          · simpa [hmem] using hs
          · simp only [hmem, if_false, Bool.false_eq_true]
            rw [applyWrite_ids]
            exact hs
        · rfl

theorem applyChannel_lookup_other (oracle : Nat → Nat → WriteOutcome)
    (st : ApplyState) (tid : Int) (es : List OverwriteEntry) (c : Int)
    (hne : c ≠ tid) :
    chanGet (applyChannel oracle st tid es).chans c = chanGet st.chans c := by
  unfold applyChannel
  cases hch : chanGet st.chans tid with
  | none => rfl
  | some ch =>
      have hcid : ch.id = tid := (chanGet_some st.chans tid ch hch).1
      have hnec : c ≠ ch.id := by rw [hcid]; exact hne
      dsimp only
      apply foldl_preserve (fun (s : ApplyState) => chanGet s.chans c = chanGet st.chans c)
      · intro s e hs
        rw [applyWrite_lookup_other _ _ _ _ _ _ hnec]
        exact hs
      · apply foldl_preserve (fun (s : ApplyState) => chanGet s.chans c = chanGet st.chans c)
        · intro s p hs
          by_cases hmem : memTargets p.1 (es.map (·.target))
          · simpa [hmem] using hs
          · simp only [hmem, if_false, Bool.false_eq_true]
            rw [applyWrite_lookup_other _ _ _ _ _ _ hnec]
            exact hs
        · rfl

theorem applyChannel_filter (oracle : Nat → Nat → WriteOutcome)
    (st : ApplyState) (tid : Int) (es : List OverwriteEntry) (q : Int → Bool)
    (hq : q tid = false) :
    (applyChannel oracle st tid es).chans.filter (fun c => q c.id) =
      st.chans.filter (fun c => q c.id) := by
  unfold applyChannel
  cases hch : chanGet st.chans tid with
  | none => rfl
  | some ch =>
      have hcid : ch.id = tid := (chanGet_some st.chans tid ch hch).1
      have hqc : q ch.id = false := by rw [hcid]; exact hq
      dsimp only
      apply foldl_preserve
        (fun (s : ApplyState) => s.chans.filter (fun c => q c.id) = st.chans.filter (fun c => q c.id))
      · intro s e hs
        rw [applyWrite_filter _ _ _ _ _ _ hqc]
        exact hs
      · apply foldl_preserve
          (fun (s : ApplyState) => s.chans.filter (fun c => q c.id) = st.chans.filter (fun c => q c.id))
        · intro s p hs
          by_cases hmem : memTargets p.1 (es.map (·.target))
          · simpa [hmem] using hs
          · simp only [hmem, if_false, Bool.false_eq_true]
            rw [applyWrite_filter _ _ _ _ _ _ hqc]
            exact hs
        · rfl

theorem applyChannel_inv (oracle : Nat → Nat → WriteOutcome) (st : ApplyState)
    (tid : Int) (es : List OverwriteEntry)
    (h1 : st.applied = countApplied st.writes)
    (h2 : st.removed = countRemoved st.writes)
    (h3 : st.errors = countErrors st.writes) :
    (applyChannel oracle st tid es).applied =
      countApplied (applyChannel oracle st tid es).writes ∧
    (applyChannel oracle st tid es).removed =
      countRemoved (applyChannel oracle st tid es).writes ∧
    (applyChannel oracle st tid es).errors =
      countErrors (applyChannel oracle st tid es).writes := by
  unfold applyChannel
  cases hch : chanGet st.chans tid with
  | none => exact ⟨h1, h2, h3⟩
  | some ch =>
      dsimp only
      apply foldl_preserve
        (fun (s : ApplyState) => s.applied = countApplied s.writes ∧
          s.removed = countRemoved s.writes ∧ s.errors = countErrors s.writes)
      · intro s e hs
        exact applyWrite_inv oracle s ch.id e.target (.set e.overwrite)
          hs.1 hs.2.1 hs.2.2
      · apply foldl_preserve
          (fun (s : ApplyState) => s.applied = countApplied s.writes ∧
            s.removed = countRemoved s.writes ∧ s.errors = countErrors s.writes)
        · intro s p hs
          by_cases hmem : memTargets p.1 (es.map (·.target))
          · simpa [hmem] using hs
          · simp only [hmem, if_false, Bool.false_eq_true]
            exact applyWrite_inv oracle s ch.id p.1 .remove hs.1 hs.2.1 hs.2.2
        · exact ⟨h1, h2, h3⟩

theorem removeFold_writes (oracle : Nat → Nat → WriteOutcome) (cid : Int)
    (ts : List DObj) :
    ∀ (L : List (DObj × Overwrite)) (s : ApplyState),
      ((L.foldl (fun s p => if memTargets p.1 ts then s
          else applyWrite oracle s cid p.1 .remove) s).writes).map writeShape =
        s.writes.map writeShape ++
          (L.filter (fun p => !(memTargets p.1 ts))).map
            (fun p => (cid, p.1.id, WriteOp.remove)) := by
  intro L
  induction L with
  | nil => intro s; simp
  | cons p T ih =>
      intro s
      by_cases hmem : memTargets p.1 ts
      · simp only [List.foldl_cons, hmem, if_true, List.filter_cons, Bool.not_true]
        rw [ih]
        simp
      · simp only [List.foldl_cons, hmem, if_false, List.filter_cons, Bool.not_false,
          Bool.false_eq_true]
        rw [ih (applyWrite oracle s cid p.1 .remove), applyWrite_writes]
        simp [writeShape]

theorem setFold_writes (oracle : Nat → Nat → WriteOutcome) (cid : Int) :
    ∀ (es : List OverwriteEntry) (s : ApplyState),
      ((es.foldl (fun s e =>
          applyWrite oracle s cid e.target (.set e.overwrite)) s).writes).map
        writeShape =
        s.writes.map writeShape ++
          es.map (fun e => (cid, e.target.id, WriteOp.set e.overwrite)) := by
  intro es
  induction es with
  | nil => intro s; simp
  | cons e T ih =>
      intro s
      simp only [List.foldl_cons, List.map_cons]
      rw [ih (applyWrite oracle s cid e.target (.set e.overwrite)), applyWrite_writes]
      simp [writeShape]

theorem applyChannel_writes_shape (oracle : Nat → Nat → WriteOutcome)
    (st : ApplyState) (tid : Int) (es : List OverwriteEntry) :
    (applyChannel oracle st tid es).writes.map writeShape =
      st.writes.map writeShape ++ chanWrites st.chans tid es := by
  unfold applyChannel chanWrites
  cases hch : chanGet st.chans tid with
  | none => simp
  | some ch =>
      dsimp only
      rw [setFold_writes, removeFold_writes]
      simp [staleOf, List.append_assoc]

theorem chanWrites_congr (chans1 chans2 : List LChannel) (tid : Int)
    (es : List OverwriteEntry) (h : chanGet chans1 tid = chanGet chans2 tid) :
    chanWrites chans1 tid es = chanWrites chans2 tid es := by
  unfold chanWrites
  rw [h]

theorem applyFold_ids (oracle : Nat → Nat → WriteOutcome) (l : Entries) :
    ∀ st : ApplyState,
      (applyFold oracle l st).chans.map (·.id) = st.chans.map (·.id) := by
  induction l with
  | nil => intro st; rfl
  | cons pe T ih =>
      intro st
      unfold applyFold at ih ⊢
      rw [List.foldl_cons, ih, applyChannel_ids]

theorem applyFold_lookup_preserve (oracle : Nat → Nat → WriteOutcome)
    (l : Entries) :
    ∀ (st : ApplyState) (c : Int), c ∉ l.map Prod.fst →
      chanGet (applyFold oracle l st).chans c = chanGet st.chans c := by
  induction l with
  | nil => intro st c _; rfl
  | cons pe T ih =>
      intro st c hc
      rw [List.map_cons, List.mem_cons] at hc
      push_neg at hc
      unfold applyFold at ih ⊢
      rw [List.foldl_cons, ih _ c hc.2, applyChannel_lookup_other _ _ _ _ _ hc.1]

theorem applyFold_inv (oracle : Nat → Nat → WriteOutcome) (l : Entries)
    (st : ApplyState)
    (h1 : st.applied = countApplied st.writes)
    (h2 : st.removed = countRemoved st.writes)
    (h3 : st.errors = countErrors st.writes) :
    (applyFold oracle l st).applied = countApplied (applyFold oracle l st).writes ∧
    (applyFold oracle l st).removed = countRemoved (applyFold oracle l st).writes ∧
    (applyFold oracle l st).errors = countErrors (applyFold oracle l st).writes := by
  unfold applyFold
  apply foldl_preserve
    (fun (s : ApplyState) => s.applied = countApplied s.writes ∧
      s.removed = countRemoved s.writes ∧ s.errors = countErrors s.writes)
  · intro s pe hs
    exact applyChannel_inv oracle s pe.1 pe.2 hs.1 hs.2.1 hs.2.2
  · exact ⟨h1, h2, h3⟩

theorem applyFold_writes_shape (oracle : Nat → Nat → WriteOutcome) :
    ∀ (l : Entries) (st : ApplyState), (l.map Prod.fst).Nodup →
      (applyFold oracle l st).writes.map writeShape =
        st.writes.map writeShape ++ plannedWrites l st.chans := by
  intro l
  induction l with
  | nil => intro st _; simp [applyFold, plannedWrites]
  | cons pe T ih =>
      intro st hnd
      rw [List.map_cons, List.nodup_cons] at hnd
      unfold applyFold at ih ⊢
      rw [List.foldl_cons]
      rw [ih (applyChannel oracle st pe.1 pe.2) hnd.2]
      rw [applyChannel_writes_shape]
      have hPW : plannedWrites T (applyChannel oracle st pe.1 pe.2).chans =
          plannedWrites T st.chans := by
        unfold plannedWrites
        congr 1
        apply List.map_congr_left
        intro qe hqe
        apply chanWrites_congr
        apply applyChannel_lookup_other
        intro heq
        exact hnd.1 (heq ▸ List.mem_map_of_mem Prod.fst hqe)
      rw [hPW]
      have hpw_cons : plannedWrites (pe :: T) st.chans =
          chanWrites st.chans pe.1 pe.2 ++ plannedWrites T st.chans := by
        unfold plannedWrites
        simp
      rw [hpw_cons, List.append_assoc]

theorem applyFold_frame (oracle : Nat → Nat → WriteOutcome) (l : Entries)
    (st : ApplyState) (q : Int → Bool) (hq : ∀ pe ∈ l, q pe.1 = false) :
    (applyFold oracle l st).chans.filter (fun c => q c.id) =
      st.chans.filter (fun c => q c.id) := by
  unfold applyFold
  induction l generalizing st with
  | nil => rfl
  | cons pe T ih =>
      rw [List.foldl_cons]
      rw [ih (applyChannel oracle st pe.1 pe.2)
        (fun x hx => hq x (List.mem_cons_of_mem pe hx))]
      exact applyChannel_filter oracle st pe.1 pe.2 q (hq pe (List.mem_cons_self pe T))

theorem applyFold_skip (oracle : Nat → Nat → WriteOutcome) :
    ∀ (l : Entries) (st : ApplyState),
      applyFold oracle l st =
        applyFold oracle
          (l.filter (fun pe => (st.chans.map (·.id)).contains pe.1)) st := by
  intro l
  induction l with
  | nil => intro st; rfl
  | cons pe T ih =>
      intro st
      unfold applyFold at ih ⊢
      rw [List.foldl_cons, List.filter_cons]
      by_cases hpres : (st.chans.map (·.id)).contains pe.1
      · rw [if_pos (by exact hpres), List.foldl_cons]
        have hids : ((applyChannel oracle st pe.1 pe.2).chans.map (·.id)) =
            st.chans.map (·.id) := applyChannel_ids oracle st pe.1 pe.2
        rw [ih (applyChannel oracle st pe.1 pe.2), hids]
      · rw [if_neg (by exact hpres)]
        have hnone : chanGet st.chans pe.1 = none := by
          rw [chanGet_none_iff]
          intro hmem
          exact hpres (List.elem_eq_true_of_mem hmem)
        have hskip : applyChannel oracle st pe.1 pe.2 = st := by
          unfold applyChannel
          rw [hnone]
        rw [hskip, ih st]

-- ---------------------------------------------------------------------------
-- C5 — retry wrapper behavior and write counting
-- ---------------------------------------------------------------------------

/-- C5: a write rate-limited twice then accepted succeeds with exactly two
backoff sleeps; a non-rate-limit platform error abandons the write at once
(no retry, no sleep); three rate limits exhaust the retry ceiling and the
write fails; every logged write lands in exactly one counter (applied =
successful sets, removed = successful removals, errors = failures, so a
retried-then-successful write counts once); and the sequence of writes the
Applier issues is fixed by the plan and the initial live roster — it does
not depend on the platform's outcomes, so no failing write aborts the
remaining entries. -/
theorem write_retry_and_counting :
    (∀ (o : Nat → WriteOutcome) (r0 r1 : Option ℚ),
      o 0 = .exn 429 r0 → o 1 = .exn 429 r1 → o 2 = .ok →
      setWithBackoff o 3 = (true, 2)) ∧
    (∀ (o : Nat → WriteOutcome) (s : Nat) (r : Option ℚ),
      s ≠ 429 → o 0 = .exn s r → setWithBackoff o 3 = (false, 0)) ∧
    (∀ o : Nat → WriteOutcome, (∀ i, i < 3 → ∃ r, o i = .exn 429 r) →
      setWithBackoff o 3 = (false, 3)) ∧
    (∀ (oracle : Nat → Nat → WriteOutcome) (plan : PermissionPlan)
        (chans : List LChannel),
      (applyPermissionPlan oracle plan chans).applied =
        countApplied (applyPermissionPlan oracle plan chans).writes ∧
      (applyPermissionPlan oracle plan chans).removed =
        countRemoved (applyPermissionPlan oracle plan chans).writes ∧
      (applyPermissionPlan oracle plan chans).errors =
        countErrors (applyPermissionPlan oracle plan chans).writes) ∧
    (∀ (oracle : Nat → Nat → WriteOutcome) (plan : PermissionPlan)
        (chans : List LChannel), (plan.entries.map Prod.fst).Nodup →
      (applyPermissionPlan oracle plan chans).writes.map writeShape =
        plannedWrites plan.entries chans) := by
  refine ⟨?_, ?_, ?_, ?_, ?_⟩
  · intro o r0 r1 h0 h1 h2
    simp [setWithBackoff, setWithBackoffGo, h0, h1, h2]
  · intro o s r hs h0
    simp [setWithBackoff, setWithBackoffGo, h0, hs]
  · intro o h
    obtain ⟨r0, h0⟩ := h 0 (by decide)
    obtain ⟨r1, h1⟩ := h 1 (by decide)
    obtain ⟨r2, h2⟩ := h 2 (by decide)
    simp [setWithBackoff, setWithBackoffGo, h0, h1, h2]
  · intro oracle plan chans
    exact applyFold_inv oracle plan.entries ⟨chans, 0, 0, 0, []⟩ rfl rfl rfl
  · intro oracle plan chans hnd
    unfold applyPermissionPlan
    rw [applyFold_writes_shape oracle plan.entries ⟨chans, 0, 0, 0, []⟩ hnd]
    rfl

/-- Witness for the retry/counting theorem: a rate-limited-twice oracle on
the fixture plan, a permission error, a permanently throttled write, and
the counter characterization at the fixture inputs. -/
theorem write_retry_and_counting_witness :
    setWithBackoff (fun i => if i < 2 then .exn 429 none else .ok) 3 = (true, 2) ∧
    setWithBackoff (fun _ => .exn 403 none) 3 = (false, 0) ∧
    setWithBackoff (fun _ => .exn 429 (some 1)) 3 = (false, 3) ∧
    (applyPermissionPlan okOracle
        ⟨[(100, [⟨everyoneRole, [("viewChannel", true)], "src"⟩])], []⟩
        [⟨100, "Gen", []⟩]).applied =
      countApplied (applyPermissionPlan okOracle
        ⟨[(100, [⟨everyoneRole, [("viewChannel", true)], "src"⟩])], []⟩
        [⟨100, "Gen", []⟩]).writes ∧
    (applyPermissionPlan okOracle
        ⟨[(100, [⟨everyoneRole, [("viewChannel", true)], "src"⟩])], []⟩
        [⟨100, "Gen", []⟩]).writes.map writeShape =
      plannedWrites [(100, [⟨everyoneRole, [("viewChannel", true)], "src"⟩])]
        [⟨100, "Gen", []⟩] := by
  refine ⟨?_, ?_, ?_, ?_, ?_⟩
  · exact write_retry_and_counting.1 _ none none rfl rfl rfl
  · exact write_retry_and_counting.2.1 _ 403 none (by decide) rfl
  · exact write_retry_and_counting.2.2.1 _
      (fun i _ => ⟨some 1, rfl⟩)
  · exact (write_retry_and_counting.2.2.2.1 okOracle
      ⟨[(100, [⟨everyoneRole, [("viewChannel", true)], "src"⟩])], []⟩
      [⟨100, "Gen", []⟩]).1
  · exact write_retry_and_counting.2.2.2.2 okOracle
      ⟨[(100, [⟨everyoneRole, [("viewChannel", true)], "src"⟩])], []⟩
      [⟨100, "Gen", []⟩] (by decide)

-- ---------------------------------------------------------------------------
-- C9 — the Applier's frame: only plan channels that exist are touched
-- ---------------------------------------------------------------------------

/-- C9: dropping plan entries whose channel id is absent from the live
roster changes nothing — not the final roster, not a counter, not the
write log (an absent channel is skipped outright); every issued write is
addressed to a channel id that is both a plan key and live; and every
live channel whose id is not a plan key survives the apply pass
completely untouched, overwrites included. -/
theorem apply_only_touches_planned_live_channels
    (oracle : Nat → Nat → WriteOutcome) (plan : PermissionPlan)
    (chans : List LChannel) :
    (applyPermissionPlan oracle plan chans =
      applyPermissionPlan oracle
        { plan with entries :=
            plan.entries.filter (fun pe => (chans.map (·.id)).contains pe.1) }
        chans) ∧
    ((plan.entries.map Prod.fst).Nodup →
      ∀ x ∈ (applyPermissionPlan oracle plan chans).writes.map writeShape,
        x.1 ∈ plan.entries.map Prod.fst ∧ x.1 ∈ chans.map (·.id)) ∧
    ((applyPermissionPlan oracle plan chans).chans.filter
        (fun c => !((plan.entries.map Prod.fst).contains c.id)) =
      chans.filter (fun c => !((plan.entries.map Prod.fst).contains c.id))) := by
  refine ⟨?_, ?_, ?_⟩
  · unfold applyPermissionPlan
    exact applyFold_skip oracle plan.entries ⟨chans, 0, 0, 0, []⟩
  · intro hnd x hx
    unfold applyPermissionPlan at hx
    rw [applyFold_writes_shape oracle plan.entries ⟨chans, 0, 0, 0, []⟩ hnd] at hx
    simp only [List.map_nil, List.nil_append] at hx
    unfold plannedWrites at hx
    rw [List.mem_flatten] at hx
    obtain ⟨block, hblock, hxin⟩ := hx
    rw [List.mem_map] at hblock
    obtain ⟨pe, hpe, hpeb⟩ := hblock
    rw [← hpeb] at hxin
    unfold chanWrites at hxin
    rcases hch : chanGet chans pe.1 with _ | ch
    · rw [hch] at hxin
      exact absurd hxin (List.not_mem_nil x)
    · rw [hch] at hxin
      obtain ⟨hid, hmem⟩ := chanGet_some chans pe.1 ch hch
      have hx1 : x.1 = ch.id := by
        rw [List.mem_append] at hxin
        rcases hxin with hin | hin <;>
        · rw [List.mem_map] at hin
          obtain ⟨y, _, hy⟩ := hin
          rw [← hy]
      constructor
      · rw [hx1, hid]
        exact List.mem_map_of_mem Prod.fst hpe
      · rw [hx1]
        exact List.mem_map_of_mem _ hmem
  · unfold applyPermissionPlan
    exact applyFold_frame oracle plan.entries ⟨chans, 0, 0, 0, []⟩
      (fun i => !((plan.entries.map Prod.fst).contains i))
      (fun pe hpe => by
        have hc : (List.map Prod.fst plan.entries).contains pe.1 = true :=
          List.elem_eq_true_of_mem (List.mem_map_of_mem Prod.fst hpe)
        simp [hc]
        exact ⟨pe.2, hpe⟩)

/-- Witness for the frame theorem: a plan addressing one live and one
deleted channel, applied next to an untouched bystander channel. -/
theorem apply_only_touches_planned_live_channels_witness :
    (applyPermissionPlan okOracle
        ⟨[(100, [⟨everyoneRole, [], "a"⟩]), (555, [⟨teamRole, [], "b"⟩])], []⟩
        [⟨100, "Gen", []⟩, ⟨300, "bystander", [(teamRole, [("viewChannel", true)])]⟩] =
      applyPermissionPlan okOracle
        ⟨[(100, [⟨everyoneRole, [], "a"⟩])], []⟩
        [⟨100, "Gen", []⟩, ⟨300, "bystander", [(teamRole, [("viewChannel", true)])]⟩]) ∧
    (∀ x ∈ (applyPermissionPlan okOracle
        ⟨[(100, [⟨everyoneRole, [], "a"⟩]), (555, [⟨teamRole, [], "b"⟩])], []⟩
        [⟨100, "Gen", []⟩,
         ⟨300, "bystander", [(teamRole, [("viewChannel", true)])]⟩]).writes.map
          writeShape,
      x.1 ∈ [(100 : Int), 555] ∧ x.1 ∈ [(100 : Int), 300]) ∧
    (applyPermissionPlan okOracle
        ⟨[(100, [⟨everyoneRole, [], "a"⟩]), (555, [⟨teamRole, [], "b"⟩])], []⟩
        [⟨100, "Gen", []⟩,
         ⟨300, "bystander", [(teamRole, [("viewChannel", true)])]⟩]).chans.filter
        (fun c => !(([100, 555] : List Int).contains c.id)) =
      [⟨300, "bystander", [(teamRole, [("viewChannel", true)])]⟩] := by
  have h := apply_only_touches_planned_live_channels okOracle
    ⟨[(100, [⟨everyoneRole, [], "a"⟩]), (555, [⟨teamRole, [], "b"⟩])], []⟩
    [⟨100, "Gen", []⟩, ⟨300, "bystander", [(teamRole, [("viewChannel", true)])]⟩]
  refine ⟨?_, ?_, ?_⟩
  · have h1 := h.1
    rwa [show (⟨[(100, [⟨everyoneRole, [], "a"⟩]),
        (555, [⟨teamRole, [], "b"⟩])], []⟩ : PermissionPlan).entries.filter
          (fun pe => (([⟨100, "Gen", []⟩,
            ⟨300, "bystander", [(teamRole, [("viewChannel", true)])]⟩] :
              List LChannel).map (·.id)).contains pe.1) =
        [(100, [⟨everyoneRole, [], "a"⟩])] from by decide] at h1
  · intro x hx
    exact h.2.1 (by decide) x hx
  · have h3 := h.2.2
    have hpred : (List.map Prod.fst
        (⟨[(100, [⟨everyoneRole, [], "a"⟩]), (555, [⟨teamRole, [], "b"⟩])], []⟩ :
          PermissionPlan).entries) = ([100, 555] : List Int) := by decide
    rw [hpred] at h3
    rw [h3]
    decide

-- ---------------------------------------------------------------------------
-- C2 infrastructure: the overwrite map under removals and sets
-- ---------------------------------------------------------------------------

theorem memTargets_id (x y : DObj) (ts : List DObj) (h : x.id = y.id) :
    memTargets x ts = memTargets y ts := by
  unfold memTargets
  rw [h]

theorem removeFold_ows_eq (ts : List DObj) :
    ∀ (L ows : List (DObj × Overwrite)),
      L.foldl (fun ows p => if memTargets p.1 ts then ows else owsRemove ows p.1)
          ows =
        ows.filter (fun q =>
          !(((L.filter (fun p => !(memTargets p.1 ts))).map
              (fun p => p.1.id)).contains q.1.id)) := by
  intro L
  induction L with
  | nil => intro ows; simp
  | cons p T ih =>
      intro ows
      rw [List.foldl_cons, List.filter_cons]
      by_cases hmem : memTargets p.1 ts
      · rw [if_pos hmem]
        simp only [hmem, Bool.not_true, Bool.false_eq_true, if_false]
        exact ih ows
      · rw [if_neg hmem]
        simp only [hmem, Bool.not_false, if_true]
        rw [ih (owsRemove ows p.1)]
        unfold owsRemove
        rw [List.filter_filter]
        apply List.filter_congr
        intro q _
        rw [List.map_cons, List.contains_cons]
        cases hq : q.1.id == p.1.id <;>
          cases hq2 : ((T.filter fun p => !memTargets p.1 ts).map
            (fun p => p.1.id)).contains q.1.id <;>
          simp [hq, hq2, BEq.comm]

theorem removeFold_ows_self (ts : List DObj) (L : List (DObj × Overwrite)) :
    L.foldl (fun ows p => if memTargets p.1 ts then ows else owsRemove ows p.1) L =
      L.filter (fun q => memTargets q.1 ts) := by
  rw [removeFold_ows_eq]
  apply List.filter_congr
  intro q hq
  cases hmem : memTargets q.1 ts
  · simp [hmem]
    exact ⟨q.1, ⟨⟨q.2, hq⟩, hmem⟩, rfl⟩
  · simp [hmem]
    intro x x1 hxL hxmem heq
    have hx := memTargets_id x q.1 ts heq
    rw [hxmem, hmem] at hx
    exact Bool.noConfusion hx

theorem owsSet_ids (ows : List (DObj × Overwrite)) (t : DObj) (ow : Overwrite) :
    (owsSet ows t ow).map (fun p => p.1.id) = ows.map (fun p => p.1.id) ∨
    (owsSet ows t ow).map (fun p => p.1.id) =
      ows.map (fun p => p.1.id) ++ [t.id] := by
  unfold owsSet
  by_cases hany : ows.any (fun p => p.1.id == t.id)
  · left
    rw [if_pos hany, List.map_map]
    apply List.map_congr_left
    intro p _
    by_cases hp : p.1.id = t.id <;> simp [hp]
  · right
    rw [if_neg hany]
    simp

theorem owsSet_mem_src (ows : List (DObj × Overwrite)) (t : DObj) (ow : Overwrite)
    (q : DObj × Overwrite) (hq : q ∈ owsSet ows t ow) :
    (∃ p ∈ ows, q.1 = p.1) ∨ q = (t, ow) := by
  unfold owsSet at hq
  by_cases hany : ows.any (fun p => p.1.id == t.id)
  · rw [if_pos hany] at hq
    rw [List.mem_map] at hq
    obtain ⟨p, hp, hpq⟩ := hq
    left
    refine ⟨p, hp, ?_⟩
    by_cases hb : p.1.id == t.id <;> simp [hb] at hpq <;> rw [← hpq]
  · rw [if_neg hany, List.mem_append] at hq
    rcases hq with hq | hq
    · exact Or.inl ⟨q, hq, rfl⟩
    · right
      simpa using hq

theorem owsSet_values (ows : List (DObj × Overwrite)) (t : DObj) (ow : Overwrite)
    (q : DObj × Overwrite) (hq : q ∈ owsSet ows t ow) (hid : q.1.id = t.id) :
    q.2 = ow := by
  unfold owsSet at hq
  by_cases hany : ows.any (fun p => p.1.id == t.id)
  · rw [if_pos hany] at hq
    rw [List.mem_map] at hq
    obtain ⟨p, hp, hpq⟩ := hq
    by_cases hb : (p.1.id == t.id) = true
    · rw [if_pos hb] at hpq
      rw [← hpq]
    · rw [if_neg hb] at hpq
      rw [← hpq] at hid
      exact absurd (beq_iff_eq.mpr hid) hb
  · rw [if_neg hany, List.mem_append] at hq
    rcases hq with hq | hq
    · exfalso
      simp only [Bool.not_eq_true] at hany
      rw [List.any_eq_false] at hany
      exact absurd (beq_iff_eq.mpr hid) (hany q hq)
    · have : q = (t, ow) := by simpa using hq
      rw [this]

theorem owsSet_mem_of_untouched (ows : List (DObj × Overwrite)) (t : DObj)
    (ow : Overwrite) (q : DObj × Overwrite) (hq : q ∈ owsSet ows t ow)
    (hid : q.1.id ≠ t.id) : q ∈ ows := by
  unfold owsSet at hq
  by_cases hany : ows.any (fun p => p.1.id == t.id)
  · rw [if_pos hany] at hq
    rw [List.mem_map] at hq
    obtain ⟨p, hp, hpq⟩ := hq
    by_cases hb : (p.1.id == t.id) = true
    · rw [if_pos hb] at hpq
      rw [← hpq] at hid
      exact absurd (eq_of_beq hb) hid
    · rw [if_neg hb] at hpq
      rw [← hpq]
      exact hp
  · rw [if_neg hany, List.mem_append] at hq
    rcases hq with hq | hq
    · exact hq
    · have : q = (t, ow) := by simpa using hq
      rw [this] at hid
      exact absurd rfl hid

theorem owsSet_target_present (ows : List (DObj × Overwrite)) (t : DObj)
    (ow : Overwrite) :
    t.id ∈ (owsSet ows t ow).map (fun p => p.1.id) := by
  unfold owsSet
  by_cases hany : ows.any (fun p => p.1.id == t.id)
  · rw [if_pos hany]
    rw [List.any_eq_true] at hany
    obtain ⟨p, hp, hb⟩ := hany
    rw [List.map_map, List.mem_map]
    refine ⟨p, hp, ?_⟩
    have : (if p.1.id == t.id then (p.1, ow) else p) = (p.1, ow) := if_pos hb
    simp only [Function.comp_apply, this]
    exact eq_of_beq hb
  · rw [if_neg hany]
    simp

theorem owsSet_ids_mono (ows : List (DObj × Overwrite)) (t : DObj)
    (ow : Overwrite) (i : Int) (h : i ∈ ows.map (fun p => p.1.id)) :
    i ∈ (owsSet ows t ow).map (fun p => p.1.id) := by
  rcases owsSet_ids ows t ow with heq | heq <;> rw [heq]
  · exact h
  · exact List.mem_append_left _ h

theorem lastOw_cons (e : OverwriteEntry) (T : List OverwriteEntry) (i : Int) :
    lastOw (e :: T) i =
      (lastOw T i).or (if e.target.id == i then some e.overwrite else none) := by
  unfold lastOw
  rw [List.reverse_cons, List.find?_append]
  cases hT : T.reverse.find? (fun x => x.target.id == i)
  · cases hb : e.target.id == i <;> simp [List.find?, hb]
  · simp

theorem lastOw_eq_none (es : List OverwriteEntry) (i : Int)
    (h : ∀ e ∈ es, e.target.id ≠ i) : lastOw es i = none := by
  unfold lastOw
  rw [List.find?_eq_none.mpr]
  · rfl
  · intro e he
    simp only [beq_iff_eq]
    exact h e (List.mem_reverse.mp he)

theorem setFold_keys (es : List OverwriteEntry) :
    ∀ (ows : List (DObj × Overwrite)) (q : DObj × Overwrite),
      q ∈ es.foldl (fun ows e => owsSet ows e.target e.overwrite) ows →
      q.1.id ∈ ows.map (fun p => p.1.id) ∨ ∃ e ∈ es, e.target.id = q.1.id := by
  induction es with
  | nil => intro ows q hq; exact Or.inl (List.mem_map_of_mem _ hq)
  | cons e T ih =>
      intro ows q hq
      rw [List.foldl_cons] at hq
      rcases ih (owsSet ows e.target e.overwrite) q hq with h | ⟨e', he', hid⟩
      · rcases owsSet_ids ows e.target e.overwrite with heq | heq <;> rw [heq] at h
        · exact Or.inl h
        · rw [List.mem_append] at h
          rcases h with h | h
          · exact Or.inl h
          · right
            refine ⟨e, List.mem_cons_self e T, ?_⟩
            have hqe : q.1.id = e.target.id := by simpa using h
            exact hqe.symm
      · exact Or.inr ⟨e', List.mem_cons_of_mem e he', hid⟩

theorem setFold_untouched (es : List OverwriteEntry) :
    ∀ (ows : List (DObj × Overwrite)) (q : DObj × Overwrite),
      q ∈ es.foldl (fun ows e => owsSet ows e.target e.overwrite) ows →
      (∀ e ∈ es, e.target.id ≠ q.1.id) → q ∈ ows := by
  induction es with
  | nil => intro ows q hq _; exact hq
  | cons e T ih =>
      intro ows q hq hno
      rw [List.foldl_cons] at hq
      have hq1 : q ∈ owsSet ows e.target e.overwrite :=
        ih _ q hq (fun x hx => hno x (List.mem_cons_of_mem e hx))
      exact owsSet_mem_of_untouched _ _ _ q hq1
        (fun h => hno e (List.mem_cons_self e T) h.symm)

theorem setFold_values (es : List OverwriteEntry) :
    ∀ (ows : List (DObj × Overwrite)) (q : DObj × Overwrite),
      q ∈ es.foldl (fun ows e => owsSet ows e.target e.overwrite) ows →
      (∃ e ∈ es, e.target.id = q.1.id) →
      some q.2 = lastOw es q.1.id := by
  induction es with
  | nil =>
      intro ows q _ hex
      obtain ⟨e, he, _⟩ := hex
      exact absurd he (List.not_mem_nil e)
  | cons e T ih =>
      intro ows q hq hex
      rw [List.foldl_cons] at hq
      rw [lastOw_cons]
      by_cases hT : ∃ e' ∈ T, e'.target.id = q.1.id
      · rw [← ih (owsSet ows e.target e.overwrite) q hq hT]
        rfl
      · have hmatch : e.target.id = q.1.id := by
          obtain ⟨e', he', hid⟩ := hex
          rcases List.mem_cons.mp he' with rfl | he'
          · exact hid
          · exact absurd ⟨e', he', hid⟩ hT
        have hnone : lastOw T q.1.id = none := by
          apply lastOw_eq_none
          intro x hx hxid
          exact hT ⟨x, hx, hxid⟩
        have hq1 : q ∈ owsSet ows e.target e.overwrite :=
          setFold_untouched T _ q hq (fun x hx hxid => hT ⟨x, hx, hxid⟩)
        have hval : q.2 = e.overwrite :=
          owsSet_values ows e.target e.overwrite q hq1 hmatch.symm
        rw [hnone, hval]
        simp [hmatch]

theorem setFold_ids_mono (es : List OverwriteEntry) :
    ∀ (ows : List (DObj × Overwrite)) (i : Int),
      i ∈ ows.map (fun p => p.1.id) →
      i ∈ (es.foldl (fun ows e => owsSet ows e.target e.overwrite) ows).map
        (fun p => p.1.id) := by
  induction es with
  | nil => intro ows i h; exact h
  | cons e T ih =>
      intro ows i h
      rw [List.foldl_cons]
      exact ih _ i (owsSet_ids_mono ows e.target e.overwrite i h)

theorem setFold_targets_present (es : List OverwriteEntry) :
    ∀ (ows : List (DObj × Overwrite)) (e : OverwriteEntry), e ∈ es →
      e.target.id ∈ (es.foldl (fun ows e => owsSet ows e.target e.overwrite) ows).map
        (fun p => p.1.id) := by
  induction es with
  | nil => intro ows e he; exact absurd he (List.not_mem_nil e)
  | cons x T ih =>
      intro ows e he
      rw [List.foldl_cons]
      rcases List.mem_cons.mp he with rfl | he'
      · exact setFold_ids_mono T _ e.target.id
          (owsSet_target_present ows e.target e.overwrite)
      · exact ih _ e he'

theorem owsSet_all_present (ows : List (DObj × Overwrite)) (t : DObj)
    (ow : Overwrite) (h : t.id ∈ ows.map (fun p => p.1.id)) :
    owsSet ows t ow = ows.map (fun p => if p.1.id == t.id then (p.1, ow) else p) := by
  unfold owsSet
  rw [if_pos]
  rw [List.any_eq_true]
  rw [List.mem_map] at h
  obtain ⟨p, hp, hpid⟩ := h
  exact ⟨p, hp, beq_iff_eq.mpr hpid⟩

theorem setFold_map_form (es : List OverwriteEntry) :
    ∀ ows : List (DObj × Overwrite),
      (∀ e ∈ es, e.target.id ∈ ows.map (fun p => p.1.id)) →
      es.foldl (fun ows e => owsSet ows e.target e.overwrite) ows =
        ows.map (fun q =>
          match lastOw es q.1.id with
          | some ow => (q.1, ow)
          | none => q) := by
  induction es with
  | nil =>
      intro ows _
      have : ∀ q : DObj × Overwrite,
          (match lastOw [] q.1.id with
           | some ow => (q.1, ow)
           | none => q) = q := fun q => rfl
      simp only [List.foldl_nil, this]
      exact (List.map_id ows).symm
  | cons e T ih =>
      intro ows hall
      rw [List.foldl_cons]
      rw [owsSet_all_present ows e.target e.overwrite
        (hall e (List.mem_cons_self e T))]
      rw [ih _ ?hTall]
      case hTall =>
        intro x hx
        have hbase := hall x (List.mem_cons_of_mem e hx)
        rw [List.map_map]
        rw [List.mem_map] at hbase ⊢
        obtain ⟨p, hp, hpid⟩ := hbase
        refine ⟨p, hp, ?_⟩
        simp only [Function.comp_apply]
        cases hc : p.1.id == e.target.id
        · simp only [Bool.false_eq_true, if_false]
          exact hpid
        · simp only [if_true]
          exact hpid
      rw [List.map_map]
      apply List.map_congr_left
      intro q _
      rw [lastOw_cons]
      simp only [Function.comp_apply]
      by_cases hc : (q.1.id == e.target.id) = true
      · have hqe : q.1.id = e.target.id := eq_of_beq hc
        have hsymm : (e.target.id == q.1.id) = true := beq_iff_eq.mpr hqe.symm
        simp only [hc, if_true, hsymm]
        cases hT : lastOw T q.1.id <;> simp [hT]
      · have hqe : q.1.id ≠ e.target.id := fun h => hc (beq_iff_eq.mpr h)
        have hsymm : (e.target.id == q.1.id) = false :=
          beq_eq_false_iff_ne.mpr (Ne.symm hqe)
        simp only [hc, Bool.false_eq_true, if_false, hsymm]
        cases hT : lastOw T q.1.id <;> simp [hT]

theorem setFold_fixpoint (es : List OverwriteEntry)
    (ows : List (DObj × Overwrite))
    (h1 : ∀ e ∈ es, e.target.id ∈ ows.map (fun p => p.1.id))
    (h2 : ∀ q ∈ ows, ∀ w, lastOw es q.1.id = some w → q.2 = w) :
    es.foldl (fun ows e => owsSet ows e.target e.overwrite) ows = ows := by
  rw [setFold_map_form es ows h1]
  have : ∀ q ∈ ows,
      (match lastOw es q.1.id with
       | some ow => (q.1, ow)
       | none => q) = q := by
    intro q hq
    cases hlast : lastOw es q.1.id with
    | some w =>
        have := h2 q hq w hlast
        simp [← this]
    | none => rfl
  rw [List.map_congr_left this]
  exact List.map_id' ows

theorem applyChanOk_all_planned (ch : LChannel) (es : List OverwriteEntry) :
    ∀ q ∈ (applyChanOk ch es).overwrites,
      memTargets q.1 (es.map (·.target)) = true := by
  intro q hq
  unfold applyChanOk at hq
  rcases setFold_keys es _ q hq with h | ⟨e, he, hid⟩
  · rw [List.mem_map] at h
    obtain ⟨p, hp, hpid⟩ := h
    rw [List.mem_filter] at hp
    rw [memTargets_id q.1 p.1 _ hpid.symm]
    exact hp.2
  · unfold memTargets
    rw [List.any_eq_true]
    exact ⟨e.target, List.mem_map_of_mem _ he, beq_iff_eq.mpr hid⟩

theorem staleOf_applyChanOk (ch : LChannel) (es : List OverwriteEntry) :
    staleOf (applyChanOk ch es) es = [] := by
  unfold staleOf
  rw [List.filter_eq_nil_iff]
  intro q hq
  rw [applyChanOk_all_planned ch es q hq]
  simp

theorem applyChanOk_idem (ch : LChannel) (es : List OverwriteEntry) :
    applyChanOk (applyChanOk ch es) es = applyChanOk ch es := by
  have hplanned := applyChanOk_all_planned ch es
  have hfilter : (applyChanOk ch es).overwrites.filter
      (fun p => memTargets p.1 (es.map (·.target))) =
      (applyChanOk ch es).overwrites := List.filter_eq_self.mpr hplanned
  have h1 : ∀ e ∈ es, e.target.id ∈
      (applyChanOk ch es).overwrites.map (fun p => p.1.id) := by
    intro e he
    unfold applyChanOk
    exact setFold_targets_present es _ e he
  have h2 : ∀ q ∈ (applyChanOk ch es).overwrites, ∀ w,
      lastOw es q.1.id = some w → q.2 = w := by
    intro q hq w hw
    by_cases hex : ∃ e ∈ es, e.target.id = q.1.id
    · have := setFold_values es _ q (by exact hq) hex
      rw [hw] at this
      exact Option.some.inj this
    · rw [lastOw_eq_none es q.1.id (fun e he hid => hex ⟨e, he, hid⟩)] at hw
      exact Option.noConfusion hw
  show { applyChanOk ch es with overwrites :=
      (es.foldl (fun ows e => owsSet ows e.target e.overwrite)
        ((applyChanOk ch es).overwrites.filter
          (fun p => memTargets p.1 (es.map (·.target))))) } = applyChanOk ch es
  rw [hfilter, setFold_fixpoint es _ h1 h2]

theorem removeFold_ok_state (cid : Int) (ts : List DObj) :
    ∀ (L : List (DObj × Overwrite)) (st : ApplyState),
      L.foldl (fun s p => if memTargets p.1 ts then s
          else applyWrite okOracle s cid p.1 .remove) st =
        { st with
          chans := (updateChan st.chans cid (fun c =>
            { c with overwrites :=
                (L.foldl (fun ows p => if memTargets p.1 ts then ows
                  else owsRemove ows p.1) c.overwrites) })),
          removed := (st.removed +
            (L.filter (fun p => !(memTargets p.1 ts))).length),
          writes := (st.writes ++
            (L.filter (fun p => !(memTargets p.1 ts))).map
              (fun p => ⟨cid, p.1.id, .remove, true, 0⟩)) } := by
  intro L
  induction L with
  | nil =>
      intro st
      simp only [List.foldl_nil, List.filter_nil, List.length_nil, Nat.add_zero,
        List.map_nil, List.append_nil]
      rw [updateChan_id_fun]
  | cons p T ih =>
      intro st
      by_cases hmem : memTargets p.1 ts
      · simp only [List.foldl_cons, hmem, if_true, List.filter_cons, Bool.not_true,
          Bool.false_eq_true, if_false]
        exact ih st
      · simp only [List.foldl_cons, hmem, if_false, Bool.false_eq_true,
          List.filter_cons, Bool.not_false, if_true]
        rw [ih (applyWrite okOracle st cid p.1 .remove), applyWrite_ok_eq]
        dsimp only
        rw [updateChan_comp st.chans cid
          (fun c => { c with overwrites := owsRemove c.overwrites p.1 }) _
          (fun c => rfl)]
        simp [List.append_assoc]
        omega

theorem setFold_ok_state (cid : Int) :
    ∀ (es : List OverwriteEntry) (st : ApplyState),
      es.foldl (fun s e =>
          applyWrite okOracle s cid e.target (.set e.overwrite)) st =
        { st with
          chans := (updateChan st.chans cid (fun c =>
            { c with overwrites :=
                (es.foldl (fun ows e => owsSet ows e.target e.overwrite)
                  c.overwrites) })),
          applied := (st.applied + es.length),
          writes := (st.writes ++
            es.map (fun e => ⟨cid, e.target.id, .set e.overwrite, true, 0⟩)) } := by
  intro es
  induction es with
  | nil =>
      intro st
      simp only [List.foldl_nil, List.length_nil, Nat.add_zero, List.map_nil,
        List.append_nil]
      rw [updateChan_id_fun]
  | cons e T ih =>
      intro st
      simp only [List.foldl_cons, List.length_cons, List.map_cons]
      rw [ih (applyWrite okOracle st cid e.target (.set e.overwrite)),
        applyWrite_ok_eq]
      dsimp only
      rw [updateChan_comp st.chans cid
        (fun c => { c with overwrites := owsSet c.overwrites e.target e.overwrite }) _
        (fun c => rfl)]
      simp [List.append_assoc]
      omega

theorem applyChannel_ok_eq (st : ApplyState) (tid : Int)
    (es : List OverwriteEntry) (ch : LChannel)
    (hch : chanGet st.chans tid = some ch) :
    applyChannel okOracle st tid es =
      { st with
        chans := (updateChan st.chans ch.id (fun c =>
          { c with overwrites :=
              (es.foldl (fun ows e => owsSet ows e.target e.overwrite)
                (ch.overwrites.foldl (fun ows p =>
                  if memTargets p.1 (es.map (·.target)) then ows
                  else owsRemove ows p.1) c.overwrites)) })),
        applied := (st.applied + es.length),
        removed := (st.removed + (staleOf ch es).length),
        writes := (st.writes ++
          ((staleOf ch es).map (fun p => ⟨ch.id, p.1.id, .remove, true, 0⟩) ++
           es.map (fun e => ⟨ch.id, e.target.id, .set e.overwrite, true, 0⟩))) } := by
  unfold applyChannel
  rw [hch]
  dsimp only
  rw [removeFold_ok_state ch.id (es.map (·.target)) ch.overwrites st]
  rw [setFold_ok_state ch.id es]
  dsimp only
  rw [updateChan_comp st.chans ch.id
    (fun c => { c with overwrites :=
      (ch.overwrites.foldl (fun ows p =>
        if memTargets p.1 (es.map (·.target)) then ows
        else owsRemove ows p.1) c.overwrites) }) _
    (fun c => rfl)]
  unfold staleOf
  simp [List.append_assoc]

theorem applyChannel_ok_chans_map (st : ApplyState) (tid : Int)
    (es : List OverwriteEntry) (hnd : (st.chans.map (·.id)).Nodup) :
    (applyChannel okOracle st tid es).chans =
      st.chans.map (fun c => if c.id = tid then applyChanOk c es else c) := by
  cases hch : chanGet st.chans tid with
  | none =>
      have hskip : applyChannel okOracle st tid es = st := by
        unfold applyChannel
        rw [hch]
      rw [hskip]
      have hnotin := (chanGet_none_iff st.chans tid).mp hch
      have : ∀ c ∈ st.chans, (if c.id = tid then applyChanOk c es else c) = c := by
        intro c hc
        rw [if_neg]
        intro heq
        exact hnotin (heq ▸ List.mem_map_of_mem _ hc)
      rw [List.map_congr_left this]
      exact (List.map_id' st.chans).symm
  | some ch =>
      obtain ⟨hcid, hchmem⟩ := chanGet_some st.chans tid ch hch
      rw [applyChannel_ok_eq st tid es ch hch]
      dsimp only
      unfold updateChan
      apply List.map_congr_left
      intro c hc
      by_cases hceq : c.id = tid
      · have hcch : c = ch := nodup_map_mem_inj hnd hc hchmem (by rw [hceq, hcid])
        subst hcch
        rw [if_pos (beq_iff_eq.mpr rfl), if_pos hceq]
        dsimp only
        rw [removeFold_ows_self (es.map (·.target)) c.overwrites]
        rfl
      · have hb : (c.id == ch.id) = false :=
          beq_eq_false_iff_ne.mpr (fun h => hceq (h.trans hcid))
        simp only [hb, Bool.false_eq_true, if_false, if_neg hceq]

theorem chanGet_map (chans : List LChannel) (F : LChannel → LChannel)
    (hF : ∀ c, (F c).id = c.id) (tid : Int) :
    chanGet (chans.map F) tid = (chanGet chans tid).map F := by
  unfold chanGet
  have h1 : (chans.map F).map (fun c => (c.id, c)) =
      (chans.map (fun c => (c.id, c))).map (fun p => (p.1, F p.2)) := by
    rw [List.map_map, List.map_map]
    apply List.map_congr_left
    intro c _
    simp [hF]
  rw [h1, dictGet_map_val]

theorem applyFold_ok_chans :
    ∀ (l : Entries) (st : ApplyState), (l.map Prod.fst).Nodup →
      (st.chans.map (·.id)).Nodup →
      (applyFold okOracle l st).chans =
        st.chans.map (fun c =>
          match dictGet l c.id with
          | some es => applyChanOk c es
          | none => c) := by
  intro l
  induction l with
  | nil =>
      intro st _ _
      have h : ∀ c ∈ st.chans,
          (match dictGet ([] : Entries) c.id with
           | some es => applyChanOk c es
           | none => c) = c := fun c _ => rfl
      rw [show applyFold okOracle [] st = st from rfl, List.map_congr_left h]
      exact (List.map_id' st.chans).symm
  | cons pe T ih =>
      intro st hk hids
      rw [List.map_cons, List.nodup_cons] at hk
      have hstep : applyFold okOracle (pe :: T) st =
          applyFold okOracle T (applyChannel okOracle st pe.1 pe.2) := rfl
      rw [hstep]
      have hids1 : ((applyChannel okOracle st pe.1 pe.2).chans.map (·.id)).Nodup := by
        rw [applyChannel_ids]
        exact hids
      rw [ih _ hk.2 hids1, applyChannel_ok_chans_map st pe.1 pe.2 hids,
        List.map_map]
      apply List.map_congr_left
      intro c hc
      simp only [Function.comp_apply]
      by_cases hceq : c.id = pe.1
      · rw [if_pos hceq]
        have hTnone : dictGet T c.id = none := by
          apply dictGet_eq_none.mpr
          intro q hq hbeq
          have hm : q.1 ∈ T.map Prod.fst := List.mem_map_of_mem Prod.fst hq
          rw [eq_of_beq hbeq, hceq] at hm
          exact hk.1 hm
        have hbeqc : (pe.1 == c.id) = true := beq_iff_eq.mpr hceq.symm
        have hidA : (applyChanOk c pe.2).id = c.id := rfl
        rw [dictGet_cons, hidA, hTnone, hbeqc]
        simp
      · rw [if_neg hceq]
        have hbeqc : (pe.1 == c.id) = false :=
          beq_eq_false_iff_ne.mpr (fun h => hceq h.symm)
        rw [dictGet_cons, hbeqc]
        cases hT : dictGet T c.id <;> simp [hT]

theorem applyFold_ok_removed :
    ∀ (l : Entries) (st : ApplyState), (l.map Prod.fst).Nodup →
      (applyFold okOracle l st).removed =
        st.removed + (l.map (fun pe =>
          match chanGet st.chans pe.1 with
          | some ch => (staleOf ch pe.2).length
          | none => 0)).sum := by
  intro l
  induction l with
  | nil => intro st _; simp [applyFold]
  | cons pe T ih =>
      intro st hk
      rw [List.map_cons, List.nodup_cons] at hk
      have hstep : applyFold okOracle (pe :: T) st =
          applyFold okOracle T (applyChannel okOracle st pe.1 pe.2) := rfl
      rw [hstep, ih _ hk.2]
      have hmapeq : T.map (fun qe =>
          match chanGet (applyChannel okOracle st pe.1 pe.2).chans qe.1 with
          | some ch => (staleOf ch qe.2).length
          | none => 0) =
          T.map (fun qe =>
          match chanGet st.chans qe.1 with
          | some ch => (staleOf ch qe.2).length
          | none => 0) := by
        apply List.map_congr_left
        intro qe hqe
        rw [applyChannel_lookup_other]
        intro heq
        exact hk.1 (heq ▸ List.mem_map_of_mem Prod.fst hqe)
      rw [hmapeq, List.map_cons, List.sum_cons]
      cases hch : chanGet st.chans pe.1 with
      | none =>
          have hskip : applyChannel okOracle st pe.1 pe.2 = st := by
            unfold applyChannel
            rw [hch]
          rw [hskip]
          simp
      | some ch =>
          rw [applyChannel_ok_eq st pe.1 pe.2 ch hch]
          dsimp only
          omega

-- ---------------------------------------------------------------------------
-- C2 — applying the same plan twice is idempotent
-- ---------------------------------------------------------------------------

/-- C2: with every write accepted by the platform, applying the same plan
a second time to the live state produced by the first apply leaves that
state exactly as it was and performs zero stale removals. -/
theorem apply_plan_idempotent (plan : PermissionPlan) (chans : List LChannel)
    (hkeys : (plan.entries.map Prod.fst).Nodup)
    (hids : (chans.map (·.id)).Nodup) :
    (applyPermissionPlan okOracle plan
        (applyPermissionPlan okOracle plan chans).chans).chans =
      (applyPermissionPlan okOracle plan chans).chans ∧
    (applyPermissionPlan okOracle plan
        (applyPermissionPlan okOracle plan chans).chans).removed = 0 := by
  have hFc_none : ∀ c : LChannel, dictGet plan.entries c.id = none →
      (match dictGet plan.entries c.id with
       | some es => applyChanOk c es
       | none => c) = c := by
    intro c h
    rw [h]
  have hFc_some : ∀ (c : LChannel) (es : List OverwriteEntry),
      dictGet plan.entries c.id = some es →
      (match dictGet plan.entries c.id with
       | some es => applyChanOk c es
       | none => c) = applyChanOk c es := by
    intro c es h
    rw [h]
  have h1 : (applyPermissionPlan okOracle plan chans).chans =
      chans.map (fun c =>
        match dictGet plan.entries c.id with
        | some es => applyChanOk c es
        | none => c) := by
    unfold applyPermissionPlan
    exact applyFold_ok_chans plan.entries ⟨chans, 0, 0, 0, []⟩ hkeys hids
  have hids1 : ((applyPermissionPlan okOracle plan chans).chans.map (·.id)).Nodup := by
    unfold applyPermissionPlan
    rw [applyFold_ids]
    exact hids
  have h2 : (applyPermissionPlan okOracle plan
      (applyPermissionPlan okOracle plan chans).chans).chans =
      (applyPermissionPlan okOracle plan chans).chans.map (fun c =>
        match dictGet plan.entries c.id with
        | some es => applyChanOk c es
        | none => c) := by
    unfold applyPermissionPlan
    exact applyFold_ok_chans plan.entries
      ⟨(applyPermissionPlan okOracle plan chans).chans, 0, 0, 0, []⟩ hkeys hids1
  constructor
  · rw [h2]
    conv_rhs => rw [h1]
    conv_lhs => rw [h1]
    rw [List.map_map]
    apply List.map_congr_left
    intro c _
    simp only [Function.comp_apply]
    cases hd : dictGet plan.entries c.id with
    | none =>
        dsimp only
        rw [hd]
    | some es =>
        dsimp only
        have hd2 : dictGet plan.entries (applyChanOk c es).id = some es := hd
        rw [hd2]
        exact applyChanOk_idem c es
  · have hr2 := applyFold_ok_removed plan.entries
      ⟨(applyPermissionPlan okOracle plan chans).chans, 0, 0, 0, []⟩ hkeys
    show (applyFold okOracle plan.entries
      ⟨(applyPermissionPlan okOracle plan chans).chans, 0, 0, 0, []⟩).removed = 0
    rw [hr2]
    simp only [Nat.zero_add]
    apply List.sum_eq_zero
    intro x hx
    rw [List.mem_map] at hx
    obtain ⟨pe, hpe, hpex⟩ := hx
    rw [← hpex]
    have hchan : chanGet (⟨(applyPermissionPlan okOracle plan chans).chans,
        0, 0, 0, []⟩ : ApplyState).chans pe.1 =
        (chanGet chans pe.1).map (fun c =>
          match dictGet plan.entries c.id with
          | some es => applyChanOk c es
          | none => c) := by
      show chanGet (applyPermissionPlan okOracle plan chans).chans pe.1 = _
      rw [h1]
      apply chanGet_map
      intro c
      cases hd : dictGet plan.entries c.id with
      | none => rfl
      | some es => rfl
    rw [hchan]
    cases hch : chanGet chans pe.1 with
    | none => rfl
    | some ch0 =>
        have hid0 : ch0.id = pe.1 := (chanGet_some chans pe.1 ch0 hch).1
        have hdict : dictGet plan.entries ch0.id = some pe.2 := by
          rw [hid0]
          exact dictGet_of_mem_nodup hkeys hpe
        simp only [Option.map_some']
        rw [hFc_some ch0 pe.2 hdict, staleOf_applyChanOk]
        rfl

/-- Witness for the idempotence theorem at the fixture plan and roster. -/
theorem apply_plan_idempotent_witness :
    (applyPermissionPlan okOracle
        ⟨[(100, [⟨everyoneRole, [("viewChannel", true)], "src"⟩])], []⟩
        ((applyPermissionPlan okOracle
          ⟨[(100, [⟨everyoneRole, [("viewChannel", true)], "src"⟩])], []⟩
          [⟨100, "Gen", [(teamRole, [("sendMessages", false)])]⟩]).chans)).chans =
      (applyPermissionPlan okOracle
        ⟨[(100, [⟨everyoneRole, [("viewChannel", true)], "src"⟩])], []⟩
        [⟨100, "Gen", [(teamRole, [("sendMessages", false)])]⟩]).chans ∧
    (applyPermissionPlan okOracle
        ⟨[(100, [⟨everyoneRole, [("viewChannel", true)], "src"⟩])], []⟩
        ((applyPermissionPlan okOracle
          ⟨[(100, [⟨everyoneRole, [("viewChannel", true)], "src"⟩])], []⟩
          [⟨100, "Gen", [(teamRole, [("sendMessages", false)])]⟩]).chans)).removed = 0 :=
  apply_plan_idempotent
    ⟨[(100, [⟨everyoneRole, [("viewChannel", true)], "src"⟩])], []⟩
    [⟨100, "Gen", [(teamRole, [("sendMessages", false)])]⟩]
    (by decide) (by decide)

end PermBot
